import Mathlib

set_option maxHeartbeats 1000000

/-!
Verification of the persistence-layer helper mixins of
`smarthome-web-portal/DB/models.py` (a Python 2 / SQLAlchemy module):
the type-compatibility policy `HelperMixin.type_compatible`, the
validation and dictionary-projection helpers (`validate`, `to_dict`,
`join_to_dict`, `join_to_dict_recurse`), the `JSONEncoded` column codec,
and the declared table schemas.

The Python runtime values that can populate a column attribute are
modelled by the inductive type `PyVal`; the declared SQLAlchemy column
types are modelled by `ColType`, abstracted to their `python_type`
(the source only ever consults `column_type.python_type`).
-/

/-- Python 2 runtime values as they appear on entity attributes and in
JSON payloads.  `str` and `unicode` are kept distinct (both are
`basestring` in Python 2), as are `int` and `long`.  A `float` is
modelled by its printed decimal form: sign, integer part, and the list
of fraction digits.  `entRef i` models a reference to the entity object
stored at index `i` of the current identity heap. -/
inductive PyVal where
  | pynone
  | bool (b : Bool)
  | int (n : Int)
  | lng (n : Int)
  | float (neg : Bool) (ip : Nat) (frac : List Nat)
  | decimal (u : Nat)
  | str (s : String)
  | unicode (s : String)
  | datetime (y mo d h mi s : Nat)
  | entRef (i : Nat)
  | list (xs : List PyVal)
  | dict (kvs : List (String × PyVal))

/-- Declared column types, abstracted to their native `python_type`:
`cInt` for `Integer`, `cBool` for `Boolean`, `cFloat` for `Float`
(`asdecimal=False`), `cDecimal` for the MySQL `DOUBLE` (whose
`python_type` is `decimal.Decimal`), `cStr` for `VARCHAR`/`Text`,
`cDateTime` for `DateTime`, and `cNone` for a type object that has no
`python_type` attribute at all. -/
inductive ColType where
  | cNone
  | cDecimal
  | cStr
  | cInt
  | cFloat
  | cBool
  | cDateTime
deriving DecidableEq, Repr

/-- Test `value is None`. -/
def isNone : PyVal → Bool
  | .pynone => true
  | _ => false

/-- Test `hasattr(column_type, 'python_type')` (false only for `cNone`). -/
def hasPythonType : ColType → Bool
  | .cNone => false
  | _ => true

/-- Python 2 `isinstance(value, column_type.python_type)`.  The check is
subtype-inclusive: `bool` is a subclass of `int`, so a boolean value is
an instance of `int`.  `long` is not a subclass of `int`, and `unicode`
is not a subclass of `str`. -/
def pyIsinstance (value : PyVal) (column_type : ColType) : Bool :=
  match column_type, value with
  | .cBool, .bool _ => true
  | .cInt, .int _ => true
  | .cInt, .bool _ => true
  | .cFloat, .float _ _ _ => true
  | .cDecimal, .decimal _ => true
  | .cStr, .str _ => true
  | .cDateTime, .datetime _ _ _ _ _ _ => true
  | _, _ => false

/-- `type(value) in [int]`: exact type check, so `True` (of type `bool`)
and longs are not `int`. -/
def isTypeInt : PyVal → Bool
  | .int _ => true
  | _ => false

/-- `type(value) in [long]`. -/
def isTypeLong : PyVal → Bool
  | .lng _ => true
  | _ => false

/-- `type(value) in [float]`. -/
def isTypeFloat : PyVal → Bool
  | .float _ _ _ => true
  | _ => false

/-- `type(value) in [bool]`. -/
def isTypeBool : PyVal → Bool
  | .bool _ => true
  | _ => false

/-- `isinstance(value, basestring)`: true for both `str` and `unicode`. -/
def isBasestring : PyVal → Bool
  | .str _ => true
  | .unicode _ => true
  | _ => false

/-- `issubclass(column_type.python_type, basestring)`: among the native
column types only `str` (the `python_type` of `VARCHAR`/`Text`) is a
subclass of `basestring`. -/
def isStringColumn : ColType → Bool
  | .cStr => true
  | _ => false

/-- `HelperMixin.type_compatible(value, column_type)` from
`DB/models.py`, translated clause by clause:

    if value is None: return True
    if not hasattr(column_type, 'python_type'): return True
    column_python_type = column_type.python_type
    if isinstance(value, column_python_type): return True
    if column_python_type in [Decimal]: return type(value) in [float, int]
    if issubclass(column_python_type, basestring):
        return isinstance(value, basestring)
    if column_python_type in [int, long]: return type(value) in [int, long]
    if column_python_type in [float]: return type(value) in [float, int]
    if column_python_type in [bool]: return type(value) in [bool]
    return False
-/
def type_compatible (value : PyVal) (column_type : ColType) : Bool :=
  if isNone value then true
  else if !hasPythonType column_type then true
  else if pyIsinstance value column_type then true
  else if column_type = ColType.cDecimal then isTypeFloat value || isTypeInt value
  else if isStringColumn column_type then isBasestring value
  else if column_type = ColType.cInt then isTypeInt value || isTypeLong value
  else if column_type = ColType.cFloat then isTypeFloat value || isTypeInt value
  else if column_type = ColType.cBool then isTypeBool value
  else false

/-- The disjunction of the guards of rules 1 to 8 of `type_compatible`:
a `(value, column_type)` pair is "matched" by a rule when that rule's
test fires (and the rule then returns its verdict).  When no rule
fires, the function falls through to `return False`. -/
def rulesMatch (value : PyVal) (column_type : ColType) : Bool :=
  isNone value || !hasPythonType column_type || pyIsinstance value column_type ||
    column_type = ColType.cDecimal || isStringColumn column_type ||
    column_type = ColType.cInt || column_type = ColType.cFloat ||
    column_type = ColType.cBool

/-! ### Decimal digit rendering and parsing

Helpers shared by the JSON codec (`json.dumps` / `json.loads` number
grammar), by `repr` of numeric values, and by the date formatting. -/

/-- The character `"` (kept as a named constant). -/
def dquote : Char := Char.ofNat 34

/-- The character `\` (kept as a named constant). -/
def bslash : Char := Char.ofNat 92

/-- The character `'` (kept as a named constant). -/
def squote : Char := Char.ofNat 39

/-- The left curly brace character. -/
def lcurly : Char := Char.ofNat 123

/-- The right curly brace character. -/
def rcurly : Char := Char.ofNat 125

/-- The decimal digit character for `d` (meaningful for `d < 10`). -/
def digitChar (d : Nat) : Char := Char.ofNat (48 + d)

/-- The value of a decimal digit character. -/
def digitVal (c : Char) : Nat := c.toNat - 48

/-- Decimal digit test, `'0' <= c <= '9'`. -/
def isDigitChar (c : Char) : Bool := 48 ≤ c.toNat && c.toNat ≤ 57

/-- Big-endian base-10 digits of `n` (empty for `n = 0`); the first
argument is recursion fuel, adequate whenever `n ≤ fuel`. -/
def natDigsAux : Nat → Nat → List Nat
  | 0, _ => []
  | _ + 1, 0 => []
  | fuel + 1, n + 1 => natDigsAux fuel ((n + 1) / 10) ++ [(n + 1) % 10]

/-- Big-endian base-10 digits of `n`, with `[0]` for zero. -/
def natDigs (n : Nat) : List Nat :=
  if n = 0 then [0] else natDigsAux n n

/-- Decimal rendering of a natural number, e.g. `natChars 120 = ['1','2','0']`. -/
def natChars (n : Nat) : List Char := (natDigs n).map digitChar

/-- Decimal rendering of an integer (Python `repr` / JSON form). -/
def intChars (n : Int) : List Char :=
  if n < 0 then '-' :: natChars n.natAbs else natChars n.natAbs

/-- Decimal rendering of a natural number as a `String`. -/
def natStr (n : Nat) : String := String.mk (natChars n)

/-- The numeric value of a big-endian digit list, `[1,2,0] ↦ 120`. -/
def fromDigitsBE (ds : List Nat) : Nat := ds.foldl (fun a d => 10 * a + d) 0

/-- Split a leading run of decimal digit characters off a character
list, returning their values (big-endian) and the remainder. -/
def takeDigits : List Char → List Nat × List Char
  | [] => ([], [])
  | c :: cs =>
    if isDigitChar c then
      (digitVal c :: (takeDigits cs).1, (takeDigits cs).2)
    else ([], c :: cs)

/-- The remainder after a parsed number may not begin with a digit or a
decimal point (inside a rendered document it begins with `,`, `]`, a
closing brace, or is empty). -/
def stopT : List Char → Bool
  | [] => true
  | c :: _ => !(isDigitChar c || c = '.')

/-- The remainder after a digit run may not begin with another digit. -/
def noDigitHead : List Char → Bool
  | [] => true
  | c :: _ => !isDigitChar c

/-! ### The JSON field codec (`JSONEncoded` over the Python 2 `json` library)

`JSONEncoded.process_bind_param` / `process_result_value` guard `None`
and otherwise delegate to `json.dumps` / `json.loads`.  The library's
serializer and parser are embedded below over `PyVal`: the printer
follows the Python 2 defaults (separators `', '` and `': '`, strings
escaped with `\"`, `\\`, short escapes and `\u00XX` for control
characters; non-ASCII characters are emitted literally, and the number
grammar covers decimal integer and fraction forms, without exponents). -/

/-- Whitespace as skipped by the JSON parser. -/
def isWsChar (c : Char) : Bool := c = ' ' || c = '\t' || c = '\n' || c = '\r'

/-- Drop leading JSON whitespace. -/
def skipWs : List Char → List Char
  | [] => []
  | c :: cs => if isWsChar c then skipWs cs else c :: cs

/-- The hexadecimal digit character for `d < 16` (lower case). -/
def hexChar (d : Nat) : Char := if d < 10 then digitChar d else Char.ofNat (87 + d)

/-- The value of a hexadecimal digit character, if it is one. -/
def hexVal (c : Char) : Option Nat :=
  if isDigitChar c then some (digitVal c)
  else if 97 ≤ c.toNat && c.toNat ≤ 102 then some (c.toNat - 87)
  else if 65 ≤ c.toNat && c.toNat ≤ 70 then some (c.toNat - 55)
  else none

/-- JSON escaping of one string character. -/
def escChar (c : Char) : List Char :=
  if c = dquote then [bslash, dquote]
  else if c = bslash then [bslash, bslash]
  else if c = '\n' then [bslash, 'n']
  else if c = '\t' then [bslash, 't']
  else if c = '\r' then [bslash, 'r']
  else if c = Char.ofNat 8 then [bslash, 'b']
  else if c = Char.ofNat 12 then [bslash, 'f']
  else if c.toNat < 32 then
    [bslash, 'u', '0', '0', hexChar (c.toNat / 16), hexChar (c.toNat % 16)]
  else [c]

/-- JSON escaping of a whole character list. -/
def escList : List Char → List Char
  | [] => []
  | c :: cs => escChar c ++ escList cs

/-- A JSON string literal: quote, escaped content, quote. -/
def strChars (cs : List Char) : List Char := dquote :: (escList cs ++ [dquote])

/-- Rendering of a `float` value (its printed decimal form). -/
def floatChars (neg : Bool) (ip : Nat) (frac : List Nat) : List Char :=
  (if neg then ['-'] else []) ++ natChars ip ++ '.' :: frac.map digitChar

mutual

/-- Characters of `json.dumps(v)` (Python 2 defaults).  On values the
library cannot serialize (`datetime`, `Decimal`, entity objects) the
rendering is unspecified — `json_dumps` below rejects those values
before this function's output is ever used. -/
def jchars : PyVal → List Char
  | .pynone => "null".data
  | .bool true => "true".data
  | .bool false => "false".data
  | .int n => intChars n
  | .lng n => intChars n
  | .float neg ip frac => floatChars neg ip frac
  | .decimal _ => []
  | .str s => strChars s.data
  | .unicode s => strChars s.data
  | .datetime _ _ _ _ _ _ => []
  | .entRef _ => []
  | .list xs => '[' :: (jcharsElems xs ++ [']'])
  | .dict kvs => lcurly :: (jcharsPairs kvs ++ [rcurly])

/-- Comma-separated renderings of array elements. -/
def jcharsElems : List PyVal → List Char
  | [] => []
  | [x] => jchars x
  | x :: y :: xs => jchars x ++ ',' :: ' ' :: jcharsElems (y :: xs)

/-- Comma-separated renderings of object members. -/
def jcharsPairs : List (String × PyVal) → List Char
  | [] => []
  | [(k, v)] => strChars k.data ++ ':' :: ' ' :: jchars v
  | (k, v) :: m :: ms =>
    strChars k.data ++ ':' :: ' ' :: jchars v ++ ',' :: ' ' :: jcharsPairs (m :: ms)

end

mutual

/-- Whether `json.dumps` accepts the value: `None`, booleans, numbers
and strings are serializable, as are lists and dicts of serializable
content; `datetime`, `Decimal` and entity objects raise `TypeError`. -/
def serializable : PyVal → Bool
  | .pynone => true
  | .bool _ => true
  | .int _ => true
  | .lng _ => true
  | .float _ _ _ => true
  | .decimal _ => false
  | .str _ => true
  | .unicode _ => true
  | .datetime _ _ _ _ _ _ => false
  | .entRef _ => false
  | .list xs => serializableElems xs
  | .dict kvs => serializablePairs kvs

/-- `serializable` over array elements. -/
def serializableElems : List PyVal → Bool
  | [] => true
  | x :: xs => serializable x && serializableElems xs

/-- `serializable` over object members. -/
def serializablePairs : List (String × PyVal) → Bool
  | [] => true
  | (_, v) :: ms => serializable v && serializablePairs ms

end

mutual

/-- The representable structured values of the codec's round-trip law:
serializable values as `json.loads` reproduces them structurally.
Strings must be `unicode` (Python 2 `json.loads` always decodes text to
`unicode`), integers must be `int` (a small `long` is parsed back as an
`int`), and a `float`'s digit-form must be well-formed (digits below
ten, a nonempty fraction). -/
def representable : PyVal → Bool
  | .pynone => true
  | .bool _ => true
  | .int _ => true
  | .float _ _ frac => decide (frac ≠ []) && frac.all (fun d => d < 10)
  | .unicode _ => true
  | .list xs => representableElems xs
  | .dict kvs => representablePairs kvs
  | _ => false

/-- `representable` over array elements. -/
def representableElems : List PyVal → Bool
  | [] => true
  | x :: xs => representable x && representableElems xs

/-- `representable` over object members. -/
def representablePairs : List (String × PyVal) → Bool
  | [] => true
  | (_, v) :: ms => representable v && representablePairs ms

end

mutual

/-- Parser-fuel cost of a value (one unit per `parseVal`/`parseElems`/
`parseMembers` activation needed to parse its rendering). -/
def sizeV : PyVal → Nat
  | .list (x :: xs) => 1 + sizeL (x :: xs)
  | .dict (m :: ms) => 1 + sizeKV (m :: ms)
  | _ => 1

/-- Parser-fuel cost of a list of array elements. -/
def sizeL : List PyVal → Nat
  | [] => 0
  | x :: xs => 1 + sizeV x + sizeL xs

/-- Parser-fuel cost of a list of object members. -/
def sizeKV : List (String × PyVal) → Nat
  | [] => 0
  | (_, v) :: ms => 1 + sizeV v + sizeKV ms

end

/-- The decoded character of a one-letter JSON escape sequence. -/
def escShort (e : Char) : Option Char :=
  if e = dquote then some dquote
  else if e = bslash then some bslash
  else if e = '/' then some '/'
  else if e = 'n' then some '\n'
  else if e = 't' then some '\t'
  else if e = 'r' then some '\r'
  else if e = 'b' then some (Char.ofNat 8)
  else if e = 'f' then some (Char.ofNat 12)
  else none

mutual

/-- Parse the body of a JSON string literal (the opening quote already
consumed): returns the decoded characters and the input after the
closing quote. -/
def parseStrChars : List Char → Option (List Char × List Char)
  | [] => none
  | c :: cs =>
    if c = dquote then some ([], cs)
    else if c = bslash then parseEsc cs
    else
      match parseStrChars cs with
      | some p => some (c :: p.1, p.2)
      | none => none

/-- Parse the remainder of a string body after a backslash: a `\uXXXX`
escape or a one-letter escape, then the rest of the body. -/
def parseEsc : List Char → Option (List Char × List Char)
  | [] => none
  | e :: cs2 =>
    if e = 'u' then
      match cs2 with
      | h1 :: h2 :: h3 :: h4 :: r =>
        match hexVal h1, hexVal h2, hexVal h3, hexVal h4 with
        | some a, some b, some x, some y =>
          match parseStrChars r with
          | some p => some (Char.ofNat (4096 * a + 256 * b + 16 * x + y) :: p.1, p.2)
          | none => none
        | _, _, _, _ => none
      | _ => none
    else
      match escShort e with
      | some d =>
        match parseStrChars cs2 with
        | some p => some (d :: p.1, p.2)
        | none => none
      | none => none

end

/-- The integer value of a parsed (possibly negated) digit run. -/
def mkIntVal (neg : Bool) (ds : List Nat) : PyVal :=
  .int (if neg then -(fromDigitsBE ds : Int) else (fromDigitsBE ds : Int))

/-- Parse the unsigned part of a JSON number (integer digits and an
optional decimal fraction), the sign already consumed. -/
def parseNumberCore (neg : Bool) (cs : List Char) : Option (PyVal × List Char) :=
  match takeDigits cs with
  | ([], _) => none
  | (d :: ds, rest) =>
    match rest with
    | c :: r2 =>
      if c = '.' then
        match takeDigits r2 with
        | ([], _) => none
        | (f :: fs, rest2) => some (.float neg (fromDigitsBE (d :: ds)) (f :: fs), rest2)
      else some (mkIntVal neg (d :: ds), rest)
    | [] => some (mkIntVal neg (d :: ds), [])

/-- Parse a JSON number (integer or decimal-fraction form). -/
def parseNumber (cs : List Char) : Option (PyVal × List Char) :=
  match cs with
  | c :: r => if c = '-' then parseNumberCore true r else parseNumberCore false cs
  | [] => parseNumberCore false []

mutual

/-- Fueled JSON value parser (embedding of `json.loads`): skips leading
whitespace and dispatches on the first character. -/
def parseVal : Nat → List Char → Option (PyVal × List Char)
  | 0, _ => none
  | fuel + 1, cs0 =>
    match skipWs cs0 with
    | [] => none
    | c :: cs =>
      if c = 'n' then
        match cs with
        | 'u' :: 'l' :: 'l' :: r => some (.pynone, r)
        | _ => none
      else if c = 't' then
        match cs with
        | 'r' :: 'u' :: 'e' :: r => some (.bool true, r)
        | _ => none
      else if c = 'f' then
        match cs with
        | 'a' :: 'l' :: 's' :: 'e' :: r => some (.bool false, r)
        | _ => none
      else if c = dquote then
        match parseStrChars cs with
        | some p => some (.unicode (String.mk p.1), p.2)
        | none => none
      else if c = '[' then
        match skipWs cs with
        | [] => none
        | d :: r =>
          if d = ']' then some (.list [], r)
          else
            match parseElems fuel (d :: r) with
            | some p => some (.list p.1, p.2)
            | none => none
      else if c = lcurly then
        match skipWs cs with
        | [] => none
        | d :: r =>
          if d = rcurly then some (.dict [], r)
          else
            match parseMembers fuel (d :: r) with
            | some p => some (.dict p.1, p.2)
            | none => none
      else parseNumber (c :: cs)

/-- Parse the elements of a nonempty JSON array (cursor just inside the
bracket); consumes the closing `]`. -/
def parseElems : Nat → List Char → Option (List PyVal × List Char)
  | 0, _ => none
  | fuel + 1, cs =>
    match parseVal fuel cs with
    | some (v, r1) =>
      match skipWs r1 with
      | [] => none
      | c :: r2 =>
        if c = ',' then
          match parseElems fuel (skipWs r2) with
          | some p => some (v :: p.1, p.2)
          | none => none
        else if c = ']' then some ([v], r2)
        else none
    | none => none

/-- Parse the members of a nonempty JSON object (cursor just inside the
brace); consumes the closing brace. -/
def parseMembers : Nat → List Char → Option (List (String × PyVal) × List Char)
  | 0, _ => none
  | fuel + 1, cs =>
    match cs with
    | [] => none
    | c :: cs1 =>
      if c = dquote then
        match parseStrChars cs1 with
        | some (k, r1) =>
          match skipWs r1 with
          | [] => none
          | c2 :: r2 =>
            if c2 = ':' then
              match parseVal fuel (skipWs r2) with
              | some (v, r3) =>
                match skipWs r3 with
                | [] => none
                | c3 :: r4 =>
                  if c3 = ',' then
                    match parseMembers fuel (skipWs r4) with
                    | some p => some ((String.mk k, v) :: p.1, p.2)
                    | none => none
                  else if c3 = rcurly then some ([(String.mk k, v)], r4)
                  else none
              | none => none
            else none
        | none => none
      else none

end

/-- The codec's error taxonomy.  Modelled from the spec:
`DB.exception` is not under `src/`; the spec names `SerializationError`
for unencodable values and `DeserializationError` for malformed stored
text. -/
inductive CodecError where
  | serializationError
  | deserializationError
deriving DecidableEq

/-- `json.dumps(v)`: fails on non-serializable content, otherwise
produces the rendered text. -/
def json_dumps (v : PyVal) : Except CodecError String :=
  if serializable v then .ok (String.mk (jchars v)) else .error .serializationError

/-- `json.loads(s)`: parse one value, allow trailing whitespace only. -/
def json_loads (s : String) : Option PyVal :=
  match parseVal (s.data.length + 1) s.data with
  | some (v, r) => if skipWs r = [] then some v else none
  | none => none

/-- `JSONEncoded.process_bind_param(value, dialect)`:

    if value is not None:
        value = json.dumps(value)
    return value
-/
def process_bind_param (value : Option PyVal) : Except CodecError (Option String) :=
  match value with
  | none => .ok none
  | some v => (json_dumps v).map some

/-- `JSONEncoded.process_result_value(value, dialect)`:

    if value is not None:
        value = json.loads(value)
    return value
-/
def process_result_value (value : Option String) : Except CodecError (Option PyVal) :=
  match value with
  | none => .ok none
  | some s =>
    match json_loads s with
    | some v => .ok (some v)
    | none => .error .deserializationError

/-! ### Entity helper layer: `validate`, `to_dict`, `join_to_dict`,
`join_to_dict_recurse`

An entity's declared schema is a list of named, typed columns; its
runtime state is its `__dict__`: an association list from attribute
names to values, in which a related entity appears as an `entRef` into
the identity heap (a list of entity states). -/

/-- Zero-padded two-digit rendering of a field of a timestamp. -/
def pad2 (n : Nat) : String := if n < 10 then String.mk ('0' :: natChars n) else natStr n

/-- Modelled from the spec: `util.format_datetime` (module `utils.util`
is not under `src/`); the spec requires timestamp values to be rendered
through a canonical date-time formatting function rather than the raw
in-memory representation.  Rendered here as
`YYYY-MM-DD HH:MM:SS`. -/
def format_datetime (y mo d h mi s : Nat) : String :=
  natStr y ++ "-" ++ pad2 mo ++ "-" ++ pad2 d ++ " " ++ pad2 h ++ ":" ++ pad2 mi ++ ":" ++ pad2 s

mutual

/-- Python 2 `repr(value)`, as interpolated by `%r` in the
`InvalidParameter` message (string escaping inside `repr` of a string
is elided; entity objects and `datetime`/`Decimal` values are rendered
schematically). -/
def pyRepr : PyVal → String
  | .pynone => "None"
  | .bool true => "True"
  | .bool false => "False"
  | .int n => String.mk (intChars n)
  | .lng n => String.mk (intChars n) ++ "L"
  | .float neg ip frac => String.mk (floatChars neg ip frac)
  | .decimal u => "Decimal(" ++ String.mk [squote] ++ natStr u ++ String.mk [squote] ++ ")"
  | .str s => String.mk [squote] ++ s ++ String.mk [squote]
  | .unicode s => "u" ++ String.mk [squote] ++ s ++ String.mk [squote]
  | .datetime y mo d h mi s =>
    "datetime.datetime(" ++ natStr y ++ ", " ++ natStr mo ++ ", " ++ natStr d ++ ", " ++
      natStr h ++ ", " ++ natStr mi ++ ", " ++ natStr s ++ ")"
  | .entRef i => "<Entity " ++ natStr i ++ ">"
  | .list xs => "[" ++ pyReprElems xs ++ "]"
  | .dict kvs => String.mk [lcurly] ++ pyReprPairs kvs ++ String.mk [rcurly]

/-- `repr` of list elements, comma separated. -/
def pyReprElems : List PyVal → String
  | [] => ""
  | [x] => pyRepr x
  | x :: y :: xs => pyRepr x ++ ", " ++ pyReprElems (y :: xs)

/-- `repr` of dict items, comma separated. -/
def pyReprPairs : List (String × PyVal) → String
  | [] => ""
  | [(k, v)] => String.mk [squote] ++ k ++ String.mk [squote] ++ ": " ++ pyRepr v
  | (k, v) :: m :: ms =>
    String.mk [squote] ++ k ++ String.mk [squote] ++ ": " ++ pyRepr v ++ ", " ++ pyReprPairs (m :: ms)

end

/-- `str(column.type)`: the SQL name of the declared type. -/
def colTypeRepr : ColType → String
  | .cNone => "NULL"
  | .cDecimal => "DOUBLE"
  | .cStr => "VARCHAR"
  | .cInt => "INTEGER"
  | .cFloat => "FLOAT"
  | .cBool => "BOOLEAN"
  | .cDateTime => "DATETIME"

/-- Modelled from the spec: `DB.exception.InvalidParameter` (module
`DB/exception.py` is not under `src/`); per the spec it is raised by
`validate` carrying a message naming the offending field, its actual
value, and its declared type. -/
structure InvalidParameter where
  message : String
deriving DecidableEq

/-- The message of the `InvalidParameter` raised by `validate`:
`'column %s value %r type is unexpected: %s' % (column.name, value, column.type)`. -/
def invalidParameterMsg (name : String) (value : PyVal) (ctype : ColType) : String :=
  "column " ++ name ++ " value " ++ pyRepr value ++ " type is unexpected: " ++ colTypeRepr ctype

/-- A declared column: name, declared type, and the two declaration
flags needed by the schema claims (primary key, and a
`default=util.get_utc_now` clause). -/
structure ColumnDef where
  name : String
  ctype : ColType
  primaryKey : Bool
  utcNowDefault : Bool
deriving DecidableEq

/-- A plain (non-key, no-default) column. -/
def col (name : String) (ctype : ColType) : ColumnDef := ⟨name, ctype, false, false⟩

/-- `HelperMixin.validate(self)`:

    columns = self.__mapper__.columns
    for column in columns:
        value = getattr(self, column.name)
        if not self.type_compatible(value, column.type):
            raise exception.InvalidParameter(
                'column %s value %r type is unexpected: %s' % (
                column.name, value, column.type))

abstracted over the declared columns and the `getattr` view of the
entity's current state. -/
def validate (columns : List ColumnDef) (get : String → PyVal) : Except InvalidParameter Unit :=
  match columns with
  | [] => .ok ()
  | column :: rest =>
    if type_compatible (get column.name) column.ctype then validate rest get
    else .error ⟨invalidParameterMsg column.name (get column.name) column.ctype⟩

/-- Python `key.startswith('_')` (equivalently the `k[0] == '_'` filter
used on `__dict__` keys). -/
def startsUnderscore (s : String) : Bool :=
  match s.data with
  | [] => false
  | c :: _ => c = '_'

/-- `HelperMixin.to_dict(self)`:

    keys = self.__mapper__.columns.keys()
    dict_info = {}
    for key in keys:
        if key.startswith('_'):
            continue
        value = getattr(self, key)
        if value is not None:
            if isinstance(value, datetime.datetime):
                value = util.format_datetime(value)
            dict_info[key] = value
    return dict_info

abstracted over the declared columns and the `getattr` view; the
result mapping is an association list in column order. -/
def to_dict (columns : List ColumnDef) (get : String → PyVal) : List (String × PyVal) :=
  columns.filterMap fun c =>
    if startsUnderscore c.name then none
    else
      match get c.name with
      | .pynone => none
      | .datetime y mo d h mi s => some (c.name, .str (format_datetime y mo d h mi s))
      | v => some (c.name, v)

/-- A value of the mapping produced by the join projections: either a
plain value or a nested mapping obtained from a related entity. -/
inductive DVal where
  | prim (v : PyVal)
  | dict (kvs : List (String × DVal))

/-- The runtime state of one entity: its declared columns and its
`__dict__` (attribute name to value, related entities as `entRef`). -/
structure EntityState where
  cols : List ColumnDef
  attrs : List (String × PyVal)

/-- `getattr(self, name)` on an entity state: the stored attribute, or
`None` when the attribute is unset. -/
def getAttr (e : EntityState) (name : String) : PyVal :=
  match e.attrs.lookup name with
  | some v => v
  | none => .pynone

/-- `self.to_dict()` on an entity state. -/
def entity_to_dict (e : EntityState) : List (String × PyVal) := to_dict e.cols (getAttr e)

/-- Lift a flat `to_dict` mapping into `DVal` values. -/
def asPrims (l : List (String × PyVal)) : List (String × DVal) :=
  l.map fun p => (p.1, DVal.prim p.2)

/-- `HelperMixin.join_to_dict(self)`:

    joined = dict([(k, v) for k, v in self.__dict__.iteritems()
                   if not k[0] == '_'])
    dict_info = {}
    for key in joined.keys():
        if key.startswith('_'):
            continue
        value = getattr(self, key)
        if value is not None:
            if isinstance(value, datetime.datetime):
                value = util.format_datetime(value)
            if isinstance(value, HelperMixin):
                value = value.to_dict()
            dict_info[key] = value
    return dict_info

The iteration is over the runtime attribute set (`__dict__`), not the
declared columns; a related entity (every entity class mixes in
`HelperMixin`) is replaced by its own flat `to_dict` projection. -/
def join_to_dict (heap : List EntityState) (e : EntityState) : List (String × DVal) :=
  e.attrs.filterMap fun p =>
    if startsUnderscore p.1 then none
    else
      match p.2 with
      | .pynone => none
      | .datetime y mo d h mi s => some (p.1, DVal.prim (.str (format_datetime y mo d h mi s)))
      | .entRef i =>
        match heap[i]? with
        | some e2 => some (p.1, DVal.dict (asPrims (entity_to_dict e2)))
        | none => some (p.1, DVal.prim (.entRef i))
      | v => some (p.1, DVal.prim v)

/-- The attribute loop shared by each `join_to_dict_recurse`
activation: `recurse` is the recursive call applied to a related
entity (with one unit of expansion fuel already consumed). -/
def joinRecAttrs (heap : List EntityState)
    (recurse : EntityState → Option (List (String × DVal))) :
    List (String × PyVal) → Option (List (String × DVal))
  | [] => some []
  | p :: rest =>
    if startsUnderscore p.1 then joinRecAttrs heap recurse rest
    else
      match p.2 with
      | .pynone => joinRecAttrs heap recurse rest
      | .datetime y mo d h mi s =>
        match joinRecAttrs heap recurse rest with
        | some t => some ((p.1, DVal.prim (.str (format_datetime y mo d h mi s))) :: t)
        | none => none
      | .entRef i =>
        match heap[i]? with
        | some e2 =>
          match recurse e2 with
          | some d =>
            match joinRecAttrs heap recurse rest with
            | some t => some ((p.1, DVal.dict d) :: t)
            | none => none
          | none => none
        | none =>
          match joinRecAttrs heap recurse rest with
          | some t => some ((p.1, DVal.prim (.entRef i)) :: t)
          | none => none
      | v =>
        match joinRecAttrs heap recurse rest with
        | some t => some ((p.1, DVal.prim v) :: t)
        | none => none

/-- `HelperMixin.join_to_dict_recurse(self)`: identical to
`join_to_dict` except that a related entity is expanded by a recursive
`join_to_dict_recurse` call.  The Python recursion carries no cycle
guard; it is embedded with explicit fuel, one unit per entity
expansion, and `none` is the out-of-fuel (non-terminating) outcome. -/
def join_to_dict_recurse (heap : List EntityState) : Nat → EntityState → Option (List (String × DVal))
  | 0, _ => none
  | fuel + 1, e => joinRecAttrs heap (join_to_dict_recurse heap fuel) e.attrs

/-! ### Concrete entity schemas

One `TableDef` per model class of `DB/models.py`.  Every class mixes in
`HelperMixin`; all except `SensorType` also mix in `DefaultMixin`,
which contributes `id = Column(Integer, primary_key=True)` and
`created_at = Column(DateTime, default=util.get_utc_now)`. -/

/-- A declared table: its `__tablename__` and columns. -/
structure TableDef where
  tablename : String
  cols : List ColumnDef
deriving DecidableEq

/-- The two columns contributed by `DefaultMixin`. -/
def defaultMixinCols : List ColumnDef :=
  [⟨"id", .cInt, true, false⟩, ⟨"created_at", .cDateTime, false, true⟩]

/-- `class User(Base, HelperMixin, DefaultMixin)`. -/
def userTable : TableDef :=
  ⟨"user", defaultMixinCols ++
    [col "username" .cStr, col "password" .cStr, col "phone" .cStr, col "gateway_id" .cInt]⟩

/-- `class Fan(Base, HelperMixin, DefaultMixin)`. -/
def fanTable : TableDef :=
  ⟨"fan", defaultMixinCols ++ [col "uuid" .cStr, col "status" .cBool, col "gateway_id" .cInt]⟩

/-- `class Button(Base, HelperMixin, DefaultMixin)`. -/
def buttonTable : TableDef :=
  ⟨"button", defaultMixinCols ++ [col "uuid" .cStr, col "status" .cBool, col "gateway_id" .cInt]⟩

/-- `class Temperature(Base, HelperMixin, DefaultMixin)`; the
`temperature` column is the MySQL `DOUBLE(precision=20, scale=15)`,
whose `python_type` is `decimal.Decimal`. -/
def temperatureTable : TableDef :=
  ⟨"temperature", defaultMixinCols ++
    [col "uuid" .cStr, col "temperature" .cDecimal, col "units" .cStr, col "range" .cStr,
      col "gateway_id" .cInt]⟩

/-- `class Rgbled(Base, HelperMixin, DefaultMixin)`. -/
def rgbledTable : TableDef :=
  ⟨"rgbled", defaultMixinCols ++
    [col "uuid" .cStr, col "rgbvalue" .cStr, col "range" .cStr, col "gateway_id" .cInt]⟩

/-- `class Led(Base, HelperMixin, DefaultMixin)`. -/
def ledTable : TableDef :=
  ⟨"led", defaultMixinCols ++ [col "uuid" .cStr, col "status" .cBool, col "gateway_id" .cInt]⟩

/-- `class Buzzer(Base, HelperMixin, DefaultMixin)`. -/
def buzzerTable : TableDef :=
  ⟨"buzzer", defaultMixinCols ++ [col "uuid" .cStr, col "status" .cBool, col "gateway_id" .cInt]⟩

/-- `class Illuminance(Base, HelperMixin, DefaultMixin)`. -/
def illuminanceTable : TableDef :=
  ⟨"illuminance", defaultMixinCols ++
    [col "uuid" .cStr, col "illuminance" .cFloat, col "gateway_id" .cInt]⟩

/-- `class Motion(Base, HelperMixin, DefaultMixin)`. -/
def motionTable : TableDef :=
  ⟨"motion", defaultMixinCols ++ [col "uuid" .cStr, col "status" .cBool, col "gateway_id" .cInt]⟩

/-- `class Gas(Base, HelperMixin, DefaultMixin)`. -/
def gasTable : TableDef :=
  ⟨"gas", defaultMixinCols ++ [col "uuid" .cStr, col "status" .cBool, col "gateway_id" .cInt]⟩

/-- `class Solar(Base, HelperMixin, DefaultMixin)`. -/
def solarTable : TableDef :=
  ⟨"solar", defaultMixinCols ++
    [col "uuid" .cStr, col "status" .cBool, col "gateway_id" .cInt,
      col "tiltpercentage" .cFloat, col "lcd_first" .cStr, col "lcd_second" .cStr]⟩

/-- `class Power(Base, HelperMixin, DefaultMixin)`. -/
def powerTable : TableDef :=
  ⟨"power", defaultMixinCols ++ [col "uuid" .cStr, col "value" .cInt, col "gateway_id" .cInt]⟩

/-- `class Energy(Base, HelperMixin, DefaultMixin)`. -/
def energyTable : TableDef :=
  ⟨"energy", defaultMixinCols ++ [col "uuid" .cStr, col "value" .cInt, col "gateway_id" .cInt]⟩

/-- `class EventLog(Base, HelperMixin, DefaultMixin)`. -/
def eventLogTable : TableDef :=
  ⟨"eventlog", defaultMixinCols ++
    [col "type" .cStr, col "data" .cStr, col "response_code" .cInt]⟩

/-- `class SmsHistroy(Base, HelperMixin, DefaultMixin)` (sic). -/
def smsHistoryTable : TableDef :=
  ⟨"sms_history", defaultMixinCols ++ [col "gateway_id" .cInt, col "uuid" .cStr]⟩

/-- `class Gateway(Base, HelperMixin, DefaultMixin)`. -/
def gatewayTable : TableDef :=
  ⟨"gateway", defaultMixinCols ++
    [col "name" .cStr, col "url" .cStr, col "address" .cStr, col "latitude" .cStr,
      col "longitude" .cStr, col "status" .cBool]⟩

/-- `class Resource(Base, HelperMixin, DefaultMixin)`. -/
def resourceTable : TableDef :=
  ⟨"resource", defaultMixinCols ++
    [col "uuid" .cStr, col "sensor_type_id" .cInt, col "status" .cBool,
      col "gateway_id" .cInt, col "path" .cStr]⟩

/-- `class SensorType(Base, HelperMixin)`: no `DefaultMixin`; it
declares its own `id = Column(Integer, primary_key=True)` and a `type`
column, and has no `created_at` at all. -/
def sensorTypeTable : TableDef :=
  ⟨"sensor_type", [⟨"id", .cInt, true, false⟩, col "type" .cStr]⟩

/-- Every concrete entity class of `DB/models.py`. -/
def allTables : List TableDef :=
  [userTable, fanTable, buttonTable, temperatureTable, rgbledTable, ledTable, buzzerTable,
    illuminanceTable, motionTable, gasTable, solarTable, powerTable, energyTable,
    eventLogTable, smsHistoryTable, gatewayTable, resourceTable, sensorTypeTable]

/-- The table carries an `id` column that is an integer primary key. -/
def hasIdPk (t : TableDef) : Bool :=
  t.cols.any fun c => c.name = "id" && c.primaryKey && c.ctype = ColType.cInt

/-- The table carries a `created_at` timestamp column defaulted to the
current UTC instant (`default=util.get_utc_now`). -/
def hasCreatedAtDefault (t : TableDef) : Bool :=
  t.cols.any fun c => c.name = "created_at" && c.ctype = ColType.cDateTime && c.utcNowDefault

/-- The table has no `created_at` column and no defaulted column at all. -/
def hasNoDefaultTimestamp (t : TableDef) : Bool :=
  t.cols.all fun c => !(c.name = "created_at") && !c.utcNowDefault

/-! ### Concrete fixtures used by the claim witnesses -/

/-- Fixture: a gateway-like entity (heap index 0 of `wHeap`). -/
def gwEntity : EntityState := ⟨[col "name" ColType.cStr], [("name", PyVal.unicode "gw1")]⟩

/-- Fixture: a fan-like entity with a populated `gateway` relation. -/
def fanEntity : EntityState :=
  ⟨fanTable.cols, [("status", PyVal.bool true), ("uuid", PyVal.unicode "a"),
    ("gateway", PyVal.entRef 0)]⟩

/-- Fixture heap for the `join_to_dict` witness. -/
def wHeap : List EntityState := [gwEntity]

/-- Fixture: leaf entity of the two-level chain (heap index 2). -/
def entC : EntityState := ⟨[], [("value", PyVal.int 5), ("uuid", PyVal.unicode "u")]⟩

/-- Fixture: middle entity of the chain, referencing `entC` (heap index 1). -/
def entB : EntityState := ⟨[], [("c", PyVal.entRef 2), ("name", PyVal.unicode "b")]⟩

/-- Fixture: root entity of the chain, referencing `entB` (heap index 0). -/
def entA : EntityState := ⟨[], [("b", PyVal.entRef 1)]⟩

/-- Fixture heap holding the acyclic chain `entA → entB → entC`. -/
def chainHeap : List EntityState := [entA, entB, entC]

/-- Fixture: entity on a two-cycle (references heap index 1). -/
def cycE0 : EntityState := ⟨[], [("peer", PyVal.entRef 1)]⟩

/-- Fixture: entity on a two-cycle (references heap index 0). -/
def cycE1 : EntityState := ⟨[], [("peer", PyVal.entRef 0)]⟩

/-- Fixture heap holding a cyclic relationship graph. -/
def cycHeap : List EntityState := [cycE0, cycE1]

/-- Fixture: a relation-free entity, for the termination witness. -/
def termEntity : EntityState := ⟨[], [("x", PyVal.int 1)]⟩

/-- Fixture heap for the termination witness. -/
def termHeap : List EntityState := [termEntity]

/-- Fixture: a boolean-typed schema for the `validate` witness. -/
def c5cols : List ColumnDef := [col "status" ColType.cBool]

/-- Fixture: a state whose every attribute reads as the integer `1`. -/
def c5get : String → PyVal := fun _ => PyVal.int 1

/-- Fixture: a four-column schema for the `to_dict` witness. -/
def c6cols : List ColumnDef :=
  [col "x" ColType.cInt, col "_p" ColType.cStr, col "ts" ColType.cDateTime,
    col "gone" ColType.cStr]

/-- Fixture: a state with an integer, a private, a timestamp and an
unset field. -/
def c6get : String → PyVal := fun n =>
  if n = "ts" then PyVal.datetime 2024 1 15 10 30 0
  else if n = "x" then PyVal.int 7
  else PyVal.pynone

/-! ## Proof layer -/

/-! ### Decimal digits -/

theorem natDigsAux_val : ∀ (fuel n : Nat), n ≤ fuel → fromDigitsBE (natDigsAux fuel n) = n := by
  intro fuel
  induction fuel with
  | zero => intro n h; interval_cases n; rfl
  | succ f ih =>
    intro n h
    match n with
    | 0 => rfl
    | m + 1 =>
      have hdiv : (m + 1) / 10 ≤ f := by
        have := Nat.div_lt_self (Nat.succ_pos m) (by norm_num : (1 : Nat) < 10)
        omega
      have hrec := ih ((m + 1) / 10) hdiv
      show fromDigitsBE (natDigsAux f ((m + 1) / 10) ++ [(m + 1) % 10]) = m + 1
      unfold fromDigitsBE at hrec ⊢
      rw [List.foldl_append]
      simp only [List.foldl, hrec]
      have := Nat.div_add_mod (m + 1) 10
      omega

theorem natDigsAux_lt : ∀ (fuel n : Nat), ∀ d ∈ natDigsAux fuel n, d < 10 := by
  intro fuel
  induction fuel with
  | zero => intro n d hd; simp [natDigsAux] at hd
  | succ f ih =>
    intro n d hd
    match n with
    | 0 => simp [natDigsAux] at hd
    | m + 1 =>
      simp only [natDigsAux, List.mem_append, List.mem_singleton] at hd
      rcases hd with hd | hd
      · exact ih _ d hd
      · subst hd; exact Nat.mod_lt _ (by norm_num)

theorem natDigsAux_ne_nil (fuel n : Nat) (h0 : 0 < n) (h : n ≤ fuel) :
    natDigsAux fuel n ≠ [] := by
  match fuel, n with
  | 0, n => omega
  | f + 1, 0 => omega
  | f + 1, m + 1 => simp [natDigsAux]

theorem natDigs_val (n : Nat) : fromDigitsBE (natDigs n) = n := by
  by_cases h : n = 0
  · subst h; rfl
  · unfold natDigs; rw [if_neg h]; exact natDigsAux_val n n le_rfl

theorem natDigs_lt (n : Nat) : ∀ d ∈ natDigs n, d < 10 := by
  intro d hd
  by_cases h : n = 0
  · subst h; simp [natDigs] at hd; omega
  · unfold natDigs at hd; rw [if_neg h] at hd; exact natDigsAux_lt n n d hd

theorem natDigs_ne_nil (n : Nat) : natDigs n ≠ [] := by
  by_cases h : n = 0
  · subst h; simp [natDigs]
  · unfold natDigs; rw [if_neg h]
    exact natDigsAux_ne_nil n n (Nat.pos_of_ne_zero h) le_rfl

theorem digitChar_facts (d : Nat) (h : d < 10) :
    isDigitChar (digitChar d) = true ∧ digitVal (digitChar d) = d ∧
      isWsChar (digitChar d) = false ∧
      digitChar d ≠ 'n' ∧ digitChar d ≠ 't' ∧ digitChar d ≠ 'f' ∧
      digitChar d ≠ dquote ∧ digitChar d ≠ '[' ∧ digitChar d ≠ lcurly ∧
      digitChar d ≠ '-' ∧ digitChar d ≠ '.' ∧ digitChar d ≠ ']' := by
  interval_cases d <;> exact ⟨rfl, rfl, rfl, by decide, by decide, by decide, by decide,
    by decide, by decide, by decide, by decide, by decide⟩

theorem takeDigits_spec : ∀ (ds : List Nat), (∀ d ∈ ds, d < 10) →
    ∀ (rest : List Char), noDigitHead rest = true →
    takeDigits (ds.map digitChar ++ rest) = (ds, rest) := by
  intro ds
  induction ds with
  | nil =>
    intro _ rest hrest
    match rest with
    | [] => rfl
    | c :: cs =>
      simp only [noDigitHead, Bool.not_eq_true'] at hrest
      simp [takeDigits, hrest]
  | cons d ds ih =>
    intro hlt rest hrest
    have hd : d < 10 := hlt d (List.mem_cons_self d ds)
    have hfacts := digitChar_facts d hd
    have ihx := ih (fun x hx => hlt x (List.mem_cons_of_mem d hx)) rest hrest
    simp only [List.map_cons, List.cons_append, takeDigits, hfacts.1, if_true, ihx]
    simp [hfacts.2.1, ihx]

theorem stopT_noDigit (rest : List Char) (h : stopT rest = true) : noDigitHead rest = true := by
  match rest with
  | [] => rfl
  | c :: r =>
    simp only [stopT, Bool.not_eq_true', Bool.or_eq_false_iff] at h
    simp [noDigitHead, h.1]

theorem parseNumberCore_int (neg : Bool) (ds : List Nat) (hne : ds ≠ [])
    (hlt : ∀ d ∈ ds, d < 10) (rest : List Char) (hrest : stopT rest = true) :
    parseNumberCore neg (ds.map digitChar ++ rest) = some (mkIntVal neg ds, rest) := by
  have ht := takeDigits_spec ds hlt rest (stopT_noDigit rest hrest)
  match ds with
  | d :: ds2 =>
    unfold parseNumberCore
    rw [ht]
    match rest with
    | [] => rfl
    | c :: r2 =>
      simp only [stopT, Bool.not_eq_true', Bool.or_eq_false_iff] at hrest
      have hc : ¬(c = '.') := by
        intro hcd
        rw [hcd] at hrest
        simp at hrest
      simp [hc]

theorem mkIntVal_true (ds : List Nat) : mkIntVal true ds = .int (-(fromDigitsBE ds : Int)) := rfl

theorem mkIntVal_false (ds : List Nat) : mkIntVal false ds = .int (fromDigitsBE ds : Int) := rfl

theorem parseNumberCore_float (neg : Bool) (ip : Nat) (frac : List Nat) (hfne : frac ≠ [])
    (hflt : ∀ d ∈ frac, d < 10) (rest : List Char) (hrest : stopT rest = true) :
    parseNumberCore neg (natChars ip ++ '.' :: frac.map digitChar ++ rest) =
      some (.float neg ip frac, rest) := by
  have hip := takeDigits_spec (natDigs ip) (natDigs_lt ip) ('.' :: (frac.map digitChar ++ rest))
    (by rfl)
  have hfr := takeDigits_spec frac hflt rest (stopT_noDigit rest hrest)
  obtain ⟨d, ds2, hds⟩ := List.exists_cons_of_ne_nil (natDigs_ne_nil ip)
  obtain ⟨f, fs2, hfs⟩ := List.exists_cons_of_ne_nil hfne
  subst hfs
  have hv : fromDigitsBE (natDigs ip) = ip := natDigs_val ip
  rw [hds] at hv
  unfold natChars parseNumberCore
  simp only [List.cons_append, List.append_assoc]
  rw [hip, hds]
  simp only [List.map_cons, List.cons_append] at hfr
  simp [hfr, hv]

theorem parseNumber_intChars (n : Int) (rest : List Char) (hrest : stopT rest = true) :
    parseNumber (intChars n ++ rest) = some (.int n, rest) := by
  obtain ⟨d, ds2, hds⟩ := List.exists_cons_of_ne_nil (natDigs_ne_nil n.natAbs)
  have hdlt : d < 10 := natDigs_lt n.natAbs d (by rw [hds]; exact List.mem_cons_self d ds2)
  by_cases hn : n < 0
  · have hic : intChars n = '-' :: natChars n.natAbs := by unfold intChars; rw [if_pos hn]
    rw [hic, List.cons_append]
    have hstep : parseNumber ('-' :: (natChars n.natAbs ++ rest)) =
        parseNumberCore true (natChars n.natAbs ++ rest) := rfl
    rw [hstep]
    unfold natChars
    rw [parseNumberCore_int true (natDigs n.natAbs) (natDigs_ne_nil _) (natDigs_lt _) rest hrest]
    rw [mkIntVal_true, natDigs_val]
    have hval : -((n.natAbs : Nat) : Int) = n := by omega
    rw [hval]
  · have hic : intChars n = natChars n.natAbs := by unfold intChars; rw [if_neg hn]
    rw [hic]
    unfold natChars
    rw [hds]
    simp only [List.map_cons, List.cons_append]
    have hne : ¬(digitChar d = '-') := (digitChar_facts d hdlt).2.2.2.2.2.2.2.2.2.1
    have hstep : parseNumber (digitChar d :: (List.map digitChar ds2 ++ rest)) =
        if digitChar d = '-' then parseNumberCore true (List.map digitChar ds2 ++ rest)
        else parseNumberCore false (digitChar d :: (List.map digitChar ds2 ++ rest)) := rfl
    rw [hstep, if_neg hne]
    have hcore := parseNumberCore_int false (natDigs n.natAbs) (natDigs_ne_nil _)
      (natDigs_lt _) rest hrest
    rw [hds] at hcore
    simp only [List.map_cons, List.cons_append] at hcore
    rw [hcore, ← hds, mkIntVal_false, natDigs_val]
    have hval : ((n.natAbs : Nat) : Int) = n := by omega
    rw [hval]

theorem parseNumber_floatChars (neg : Bool) (ip : Nat) (frac : List Nat) (hfne : frac ≠ [])
    (hflt : ∀ d ∈ frac, d < 10) (rest : List Char) (hrest : stopT rest = true) :
    parseNumber (floatChars neg ip frac ++ rest) = some (.float neg ip frac, rest) := by
  obtain ⟨d, ds2, hds⟩ := List.exists_cons_of_ne_nil (natDigs_ne_nil ip)
  have hdlt : d < 10 := natDigs_lt ip d (by rw [hds]; exact List.mem_cons_self d ds2)
  have hcore := parseNumberCore_float neg ip frac hfne hflt rest hrest
  match neg with
  | true =>
    have hfc : floatChars true ip frac ++ rest =
        '-' :: (natChars ip ++ '.' :: frac.map digitChar ++ rest) := by
      unfold floatChars
      simp
    rw [hfc]
    have hstep : parseNumber ('-' :: (natChars ip ++ '.' :: frac.map digitChar ++ rest)) =
        parseNumberCore true (natChars ip ++ '.' :: frac.map digitChar ++ rest) := rfl
    rw [hstep, hcore]
  | false =>
    have hfc : floatChars false ip frac ++ rest =
        natChars ip ++ '.' :: frac.map digitChar ++ rest := by
      unfold floatChars
      simp
    rw [hfc]
    unfold natChars
    rw [hds]
    simp only [List.map_cons, List.cons_append, List.append_assoc]
    have hne : ¬(digitChar d = '-') := (digitChar_facts d hdlt).2.2.2.2.2.2.2.2.2.1
    have hstep : parseNumber (digitChar d ::
          (List.map digitChar ds2 ++ ('.' :: (List.map digitChar frac ++ rest)))) =
        if digitChar d = '-' then
          parseNumberCore true (List.map digitChar ds2 ++ ('.' :: (List.map digitChar frac ++ rest)))
        else parseNumberCore false
          (digitChar d :: (List.map digitChar ds2 ++ ('.' :: (List.map digitChar frac ++ rest)))) := rfl
    rw [hstep, if_neg hne]
    unfold natChars at hcore
    rw [hds] at hcore
    simp only [List.map_cons, List.cons_append, List.append_assoc] at hcore
    exact hcore

theorem hexVal_hexChar (d : Nat) (h : d < 16) : hexVal (hexChar d) = some d := by
  interval_cases d <;> decide

theorem parseStrChars_quote (rest : List Char) :
    parseStrChars (dquote :: rest) = some ([], rest) := by
  unfold parseStrChars
  rw [if_pos rfl]

theorem parseStrChars_lit (c : Char) (hq : ¬c = dquote) (hb : ¬c = bslash)
    (tail out r : List Char) (ht : parseStrChars tail = some (out, r)) :
    parseStrChars (c :: tail) = some (c :: out, r) := by
  unfold parseStrChars
  rw [if_neg hq, if_neg hb, ht]

theorem parseStrChars_short (e d : Char) (hu : ¬e = 'u') (hs : escShort e = some d)
    (tail out r : List Char) (ht : parseStrChars tail = some (out, r)) :
    parseStrChars (bslash :: e :: tail) = some (d :: out, r) := by
  have h1 : parseStrChars (bslash :: e :: tail) = parseEsc (e :: tail) := by
    unfold parseStrChars
    rw [if_neg (by decide : ¬(bslash = dquote)), if_pos rfl]
  rw [h1]
  unfold parseEsc
  rw [if_neg hu, hs, ht]

theorem parseStrChars_hex (a b x y : Nat) (ha : a < 16) (hb : b < 16) (hx : x < 16) (hy : y < 16)
    (tail out r : List Char) (ht : parseStrChars tail = some (out, r)) :
    parseStrChars (bslash :: 'u' :: hexChar a :: hexChar b :: hexChar x :: hexChar y :: tail) =
      some (Char.ofNat (4096 * a + 256 * b + 16 * x + y) :: out, r) := by
  have h1 : parseStrChars (bslash :: 'u' :: hexChar a :: hexChar b :: hexChar x :: hexChar y :: tail) =
      parseEsc ('u' :: hexChar a :: hexChar b :: hexChar x :: hexChar y :: tail) := by
    unfold parseStrChars
    rw [if_neg (by decide : ¬(bslash = dquote)), if_pos rfl]
  rw [h1]
  unfold parseEsc
  rw [if_pos rfl]
  simp only [hexVal_hexChar a ha, hexVal_hexChar b hb, hexVal_hexChar x hx,
    hexVal_hexChar y hy, ht]

theorem parseStrChars_escList : ∀ (cs rest : List Char),
    parseStrChars (escList cs ++ dquote :: rest) = some (cs, rest) := by
  intro cs
  induction cs with
  | nil => intro rest; exact parseStrChars_quote rest
  | cons c cs ih =>
    intro rest
    show parseStrChars ((escChar c ++ escList cs) ++ dquote :: rest) = some (c :: cs, rest)
    rw [List.append_assoc]
    by_cases h1 : c = dquote
    · subst h1
      rw [show escChar dquote = [bslash, dquote] from by unfold escChar; rw [if_pos rfl]]
      exact parseStrChars_short dquote dquote (by decide) (by decide) _ _ _ (ih rest)
    by_cases h2 : c = bslash
    · subst h2
      rw [show escChar bslash = [bslash, bslash] from by
        unfold escChar; rw [if_neg (by decide), if_pos rfl]]
      exact parseStrChars_short bslash bslash (by decide) (by decide) _ _ _ (ih rest)
    by_cases h3 : c = '\n'
    · subst h3
      rw [show escChar '\n' = [bslash, 'n'] from by
        unfold escChar; rw [if_neg (by decide), if_neg (by decide), if_pos rfl]]
      exact parseStrChars_short 'n' '\n' (by decide) (by decide) _ _ _ (ih rest)
    by_cases h4 : c = '\t'
    · subst h4
      rw [show escChar '\t' = [bslash, 't'] from by
        unfold escChar; rw [if_neg (by decide), if_neg (by decide), if_neg (by decide), if_pos rfl]]
      exact parseStrChars_short 't' '\t' (by decide) (by decide) _ _ _ (ih rest)
    by_cases h5 : c = '\r'
    · subst h5
      rw [show escChar '\r' = [bslash, 'r'] from by
        unfold escChar
        rw [if_neg (by decide), if_neg (by decide), if_neg (by decide), if_neg (by decide),
          if_pos rfl]]
      exact parseStrChars_short 'r' '\r' (by decide) (by decide) _ _ _ (ih rest)
    by_cases h6 : c = Char.ofNat 8
    · subst h6
      rw [show escChar (Char.ofNat 8) = [bslash, 'b'] from by
        unfold escChar
        rw [if_neg (by decide), if_neg (by decide), if_neg (by decide), if_neg (by decide),
          if_neg (by decide), if_pos rfl]]
      exact parseStrChars_short 'b' (Char.ofNat 8) (by decide) (by decide) _ _ _ (ih rest)
    by_cases h7 : c = Char.ofNat 12
    · subst h7
      rw [show escChar (Char.ofNat 12) = [bslash, 'f'] from by
        unfold escChar
        rw [if_neg (by decide), if_neg (by decide), if_neg (by decide), if_neg (by decide),
          if_neg (by decide), if_neg (by decide), if_pos rfl]]
      exact parseStrChars_short 'f' (Char.ofNat 12) (by decide) (by decide) _ _ _ (ih rest)
    by_cases h8 : c.toNat < 32
    · rw [show escChar c =
          [bslash, 'u', '0', '0', hexChar (c.toNat / 16), hexChar (c.toNat % 16)] from by
        unfold escChar
        rw [if_neg h1, if_neg h2, if_neg h3, if_neg h4, if_neg h5, if_neg h6, if_neg h7,
          if_pos h8]]
      have hx := parseStrChars_hex 0 0 (c.toNat / 16) (c.toNat % 16) (by norm_num) (by norm_num)
        (by omega) (by omega) _ _ _ (ih rest)
      have harith : 4096 * 0 + 256 * 0 + 16 * (c.toNat / 16) + c.toNat % 16 = c.toNat := by
        have := Nat.div_add_mod c.toNat 16
        omega
      rw [harith, Char.ofNat_toNat] at hx
      exact hx
    · rw [show escChar c = [c] from by
        unfold escChar
        rw [if_neg h1, if_neg h2, if_neg h3, if_neg h4, if_neg h5, if_neg h6, if_neg h7,
          if_neg h8]]
      exact parseStrChars_lit c h1 h2 _ _ _ (ih rest)

theorem skipWs_cons_nonws (c : Char) (cs : List Char) (h : isWsChar c = false) :
    skipWs (c :: cs) = c :: cs := by
  unfold skipWs
  rw [h]
  simp

theorem parseVal_null (fuel : Nat) (rest : List Char) :
    parseVal (fuel + 1) ('n' :: 'u' :: 'l' :: 'l' :: rest) = some (.pynone, rest) := rfl

theorem parseVal_true (fuel : Nat) (rest : List Char) :
    parseVal (fuel + 1) ('t' :: 'r' :: 'u' :: 'e' :: rest) = some (.bool true, rest) := rfl

theorem parseVal_false (fuel : Nat) (rest : List Char) :
    parseVal (fuel + 1) ('f' :: 'a' :: 'l' :: 's' :: 'e' :: rest) = some (.bool false, rest) := rfl

theorem parseVal_quote (fuel : Nat) (cs : List Char) :
    parseVal (fuel + 1) (dquote :: cs) =
      match parseStrChars cs with
      | some p => some (.unicode (String.mk p.1), p.2)
      | none => none := rfl

theorem parseVal_list_nil (fuel : Nat) (rest : List Char) :
    parseVal (fuel + 1) ('[' :: ']' :: rest) = some (.list [], rest) := rfl

theorem parseVal_dict_nil (fuel : Nat) (rest : List Char) :
    parseVal (fuel + 1) (lcurly :: rcurly :: rest) = some (.dict [], rest) := rfl

theorem parseVal_list_cons (fuel : Nat) (d : Char) (r : List Char)
    (hws : isWsChar d = false) (hd : ¬d = ']') :
    parseVal (fuel + 1) ('[' :: d :: r) =
      match parseElems fuel (d :: r) with
      | some p => some (.list p.1, p.2)
      | none => none := by
  unfold parseVal
  rw [skipWs_cons_nonws '[' (d :: r) (by decide)]
  simp only []
  rw [if_neg (by decide : ¬('[' = 'n')), if_neg (by decide : ¬('[' = 't')),
    if_neg (by decide : ¬('[' = 'f')), if_neg (by decide : ¬('[' = dquote)), if_pos trivial]
  rw [skipWs_cons_nonws d r hws]
  simp only []
  rw [if_neg hd]

theorem parseVal_dict_cons (fuel : Nat) (d : Char) (r : List Char)
    (hws : isWsChar d = false) (hd : ¬d = rcurly) :
    parseVal (fuel + 1) (lcurly :: d :: r) =
      match parseMembers fuel (d :: r) with
      | some p => some (.dict p.1, p.2)
      | none => none := by
  unfold parseVal
  rw [skipWs_cons_nonws lcurly (d :: r) (by decide)]
  simp only []
  rw [if_neg (by decide : ¬(lcurly = 'n')), if_neg (by decide : ¬(lcurly = 't')),
    if_neg (by decide : ¬(lcurly = 'f')), if_neg (by decide : ¬(lcurly = dquote)),
    if_neg (by decide : ¬(lcurly = '[')), if_pos trivial]
  rw [skipWs_cons_nonws d r hws]
  simp only []
  rw [if_neg hd]

theorem parseVal_num (fuel : Nat) (c : Char) (cs : List Char)
    (hws : isWsChar c = false) (hn : ¬c = 'n') (ht : ¬c = 't') (hf : ¬c = 'f')
    (hq : ¬c = dquote) (hl : ¬c = '[') (hc : ¬c = lcurly) :
    parseVal (fuel + 1) (c :: cs) = parseNumber (c :: cs) := by
  unfold parseVal
  rw [skipWs_cons_nonws c cs hws]
  simp only []
  rw [if_neg hn, if_neg ht, if_neg hf, if_neg hq, if_neg hl, if_neg hc]

theorem parseVal_ws (fuel : Nat) (c : Char) (cs : List Char) (h : isWsChar c = true) :
    parseVal (fuel + 1) (c :: cs) = parseVal (fuel + 1) cs := by
  have hs : skipWs (c :: cs) = skipWs cs := by
    show (if isWsChar c = true then skipWs cs else c :: cs) = skipWs cs
    rw [h]
    simp
  unfold parseVal
  rw [hs]

theorem stringMk_data (s : String) : String.mk s.data = s := by
  cases s
  rfl

theorem sizeV_pos (v : PyVal) : 1 ≤ sizeV v := by
  match v with
  | .list [] => exact le_refl 1
  | .list (x :: xs) => show 1 ≤ 1 + sizeL (x :: xs); omega
  | .dict [] => exact le_refl 1
  | .dict (m :: ms) => show 1 ≤ 1 + sizeKV (m :: ms); omega
  | .pynone => exact le_refl 1
  | .bool _ => exact le_refl 1
  | .int _ => exact le_refl 1
  | .lng _ => exact le_refl 1
  | .float _ _ _ => exact le_refl 1
  | .decimal _ => exact le_refl 1
  | .str _ => exact le_refl 1
  | .unicode _ => exact le_refl 1
  | .datetime _ _ _ _ _ _ => exact le_refl 1
  | .entRef _ => exact le_refl 1

theorem jchars_head (v : PyVal) (hr : representable v = true) :
    ∃ c t, jchars v = c :: t ∧ isWsChar c = false ∧ ¬c = ']' := by
  cases v with
  | pynone => exact ⟨'n', _, rfl, by decide, by decide⟩
  | bool b =>
    cases b with
    | false => exact ⟨'f', _, rfl, by decide, by decide⟩
    | true => exact ⟨'t', _, rfl, by decide, by decide⟩
  | int n =>
    by_cases hn : n < 0
    · refine ⟨'-', natChars n.natAbs, ?_, by decide, by decide⟩
      show intChars n = '-' :: natChars n.natAbs
      unfold intChars
      rw [if_pos hn]
    · obtain ⟨d, ds2, hds⟩ := List.exists_cons_of_ne_nil (natDigs_ne_nil n.natAbs)
      have hdlt : d < 10 := natDigs_lt n.natAbs d (by rw [hds]; exact List.mem_cons_self d ds2)
      have hf := digitChar_facts d hdlt
      refine ⟨digitChar d, List.map digitChar ds2, ?_, hf.2.2.1, hf.2.2.2.2.2.2.2.2.2.2.2⟩
      show intChars n = _
      unfold intChars
      rw [if_neg hn]
      unfold natChars
      rw [hds]
      rfl
  | float neg ip frac =>
    match neg with
    | true =>
      refine ⟨'-', natChars ip ++ '.' :: frac.map digitChar, ?_, by decide, by decide⟩
      show floatChars true ip frac = '-' :: (natChars ip ++ '.' :: frac.map digitChar)
      unfold floatChars
      rfl
    | false =>
      obtain ⟨d, ds2, hds⟩ := List.exists_cons_of_ne_nil (natDigs_ne_nil ip)
      have hdlt : d < 10 := natDigs_lt ip d (by rw [hds]; exact List.mem_cons_self d ds2)
      have hf := digitChar_facts d hdlt
      refine ⟨digitChar d, List.map digitChar ds2 ++ '.' :: frac.map digitChar,
        ?_, hf.2.2.1, hf.2.2.2.2.2.2.2.2.2.2.2⟩
      show floatChars false ip frac =
        digitChar d :: (List.map digitChar ds2 ++ '.' :: frac.map digitChar)
      unfold floatChars natChars
      rw [hds]
      rfl
  | unicode s => exact ⟨dquote, _, rfl, by decide, by decide⟩
  | list xs => exact ⟨'[', _, rfl, by decide, by decide⟩
  | dict kvs => exact ⟨lcurly, _, rfl, by decide, by decide⟩
  | lng n => simp [representable] at hr
  | decimal u => simp [representable] at hr
  | str s => simp [representable] at hr
  | datetime y mo d h mi s => simp [representable] at hr
  | entRef i => simp [representable] at hr

theorem parseVal_intChars (fuel : Nat) (n : Int) (rest : List Char) (hrest : stopT rest = true) :
    parseVal (fuel + 1) (intChars n ++ rest) = some (.int n, rest) := by
  by_cases hn : n < 0
  · have hic : intChars n = '-' :: natChars n.natAbs := by unfold intChars; rw [if_pos hn]
    rw [hic, List.cons_append]
    rw [parseVal_num fuel '-' (natChars n.natAbs ++ rest) (by decide) (by decide) (by decide)
      (by decide) (by decide) (by decide) (by decide)]
    have := parseNumber_intChars n rest hrest
    rw [hic, List.cons_append] at this
    exact this
  · obtain ⟨d, ds2, hds⟩ := List.exists_cons_of_ne_nil (natDigs_ne_nil n.natAbs)
    have hdlt : d < 10 := natDigs_lt n.natAbs d (by rw [hds]; exact List.mem_cons_self d ds2)
    have hf := digitChar_facts d hdlt
    have hic : intChars n = digitChar d :: List.map digitChar ds2 := by
      unfold intChars
      rw [if_neg hn]
      unfold natChars
      rw [hds]
      rfl
    rw [hic, List.cons_append]
    rw [parseVal_num fuel (digitChar d) (List.map digitChar ds2 ++ rest) hf.2.2.1
      hf.2.2.2.1 hf.2.2.2.2.1 hf.2.2.2.2.2.1 hf.2.2.2.2.2.2.1 hf.2.2.2.2.2.2.2.1
      hf.2.2.2.2.2.2.2.2.1]
    have := parseNumber_intChars n rest hrest
    rw [hic, List.cons_append] at this
    exact this

theorem parseVal_floatChars (fuel : Nat) (neg : Bool) (ip : Nat) (frac : List Nat)
    (hfne : frac ≠ []) (hflt : ∀ d ∈ frac, d < 10) (rest : List Char)
    (hrest : stopT rest = true) :
    parseVal (fuel + 1) (floatChars neg ip frac ++ rest) = some (.float neg ip frac, rest) := by
  have hp := parseNumber_floatChars neg ip frac hfne hflt rest hrest
  match neg with
  | true =>
    have hfc : floatChars true ip frac = '-' :: (natChars ip ++ '.' :: frac.map digitChar) := by
      unfold floatChars; rfl
    rw [hfc, List.cons_append]
    rw [parseVal_num fuel '-' _ (by decide) (by decide) (by decide) (by decide) (by decide)
      (by decide) (by decide)]
    rw [hfc, List.cons_append] at hp
    exact hp
  | false =>
    obtain ⟨d, ds2, hds⟩ := List.exists_cons_of_ne_nil (natDigs_ne_nil ip)
    have hdlt : d < 10 := natDigs_lt ip d (by rw [hds]; exact List.mem_cons_self d ds2)
    have hf := digitChar_facts d hdlt
    have hfc : floatChars false ip frac =
        digitChar d :: (List.map digitChar ds2 ++ '.' :: frac.map digitChar) := by
      unfold floatChars natChars
      rw [hds]
      rfl
    rw [hfc, List.cons_append]
    rw [parseVal_num fuel (digitChar d) _ hf.2.2.1 hf.2.2.2.1 hf.2.2.2.2.1 hf.2.2.2.2.2.1
      hf.2.2.2.2.2.2.1 hf.2.2.2.2.2.2.2.1 hf.2.2.2.2.2.2.2.2.1]
    rw [hfc, List.cons_append] at hp
    exact hp

theorem parseVal_strChars (fuel : Nat) (s : String) (rest : List Char) :
    parseVal (fuel + 1) (strChars s.data ++ rest) = some (.unicode s, rest) := by
  have h1 : strChars s.data ++ rest = dquote :: (escList s.data ++ dquote :: rest) := by
    unfold strChars
    simp
  rw [h1, parseVal_quote, parseStrChars_escList s.data rest]

theorem skipWs_ws (c : Char) (t : List Char) (h : isWsChar c = true) :
    skipWs (c :: t) = skipWs t := by
  show (if isWsChar c = true then skipWs t else c :: t) = skipWs t
  rw [h]
  simp

theorem jcharsElems_head (x : PyVal) (xs : List PyVal) (hr : representable x = true) :
    ∃ c u, jcharsElems (x :: xs) = c :: u ∧ isWsChar c = false ∧ ¬c = ']' := by
  obtain ⟨c, t, hct, hws, hne⟩ := jchars_head x hr
  cases xs with
  | nil => exact ⟨c, t, by show jchars x = c :: t; exact hct, hws, hne⟩
  | cons y ys =>
    refine ⟨c, t ++ ',' :: ' ' :: jcharsElems (y :: ys), ?_, hws, hne⟩
    show jchars x ++ ',' :: ' ' :: jcharsElems (y :: ys) = c :: (t ++ ',' :: ' ' :: jcharsElems (y :: ys))
    rw [hct]
    rfl

theorem jcharsPairs_head (m : String × PyVal) (ms : List (String × PyVal)) :
    ∃ u, jcharsPairs (m :: ms) = dquote :: u := by
  obtain ⟨k, v⟩ := m
  cases ms with
  | nil =>
    refine ⟨escList k.data ++ [dquote] ++ ':' :: ' ' :: jchars v, ?_⟩
    show strChars k.data ++ ':' :: ' ' :: jchars v = _
    unfold strChars
    simp
  | cons m2 ms2 =>
    refine ⟨escList k.data ++ [dquote] ++ ':' :: ' ' :: jchars v ++
      ',' :: ' ' :: jcharsPairs (m2 :: ms2), ?_⟩
    show strChars k.data ++ ':' :: ' ' :: jchars v ++ ',' :: ' ' :: jcharsPairs (m2 :: ms2) = _
    unfold strChars
    simp

theorem parse_jchars : ∀ fuel : Nat,
    (∀ v, representable v = true → sizeV v ≤ fuel → ∀ rest, stopT rest = true →
      parseVal fuel (jchars v ++ rest) = some (v, rest))
    ∧ (∀ x xs, representableElems (x :: xs) = true → sizeL (x :: xs) ≤ fuel →
      ∀ rest, parseElems fuel (jcharsElems (x :: xs) ++ ']' :: rest) = some (x :: xs, rest))
    ∧ (∀ m ms, representablePairs (m :: ms) = true → sizeKV (m :: ms) ≤ fuel →
      ∀ rest, parseMembers fuel (jcharsPairs (m :: ms) ++ rcurly :: rest) = some (m :: ms, rest)) := by
  intro fuel
  induction fuel with
  | zero =>
    refine ⟨?_, ?_, ?_⟩
    · intro v _ hsz rest _
      exfalso
      have := sizeV_pos v
      omega
    · intro x xs _ hsz rest
      exfalso
      have h1 : sizeL (x :: xs) = 1 + sizeV x + sizeL xs := rfl
      omega
    · intro m ms _ hsz rest
      exfalso
      have h1 : sizeKV (m :: ms) = 1 + sizeV m.2 + sizeKV ms := by
        obtain ⟨k, v⟩ := m
        rfl
      omega
  | succ fuel ih =>
    obtain ⟨ih1, ih2, ih3⟩ := ih
    refine ⟨?_, ?_, ?_⟩
    · -- values
      intro v hr hsz rest hrest
      cases v with
      | pynone => exact parseVal_null fuel rest
      | bool b =>
        cases b with
        | true => exact parseVal_true fuel rest
        | false => exact parseVal_false fuel rest
      | int n => exact parseVal_intChars fuel n rest hrest
      | float neg ip frac =>
        have hx : frac ≠ [] ∧ ∀ d ∈ frac, d < 10 := by
          have hr2 : (decide (frac ≠ []) && frac.all (fun d => decide (d < 10))) = true := hr
          simp at hr2
          exact hr2
        exact parseVal_floatChars fuel neg ip frac hx.1 hx.2 rest hrest
      | unicode s => exact parseVal_strChars fuel s rest
      | str s => simp [representable] at hr
      | lng n => simp [representable] at hr
      | decimal u => simp [representable] at hr
      | datetime y mo d h mi s => simp [representable] at hr
      | entRef i => simp [representable] at hr
      | list xs =>
        cases xs with
        | nil => exact parseVal_list_nil fuel rest
        | cons x xs =>
          have hform : jchars (.list (x :: xs)) ++ rest =
              '[' :: (jcharsElems (x :: xs) ++ ']' :: rest) := by
            show ('[' :: (jcharsElems (x :: xs) ++ [']'])) ++ rest = _
            simp
          rw [hform]
          have hrx : representable x = true := by
            have hr2 : (representable x && representableElems xs) = true := hr
            exact (Bool.and_eq_true_iff.mp hr2).1
          obtain ⟨c, u, hu, hws, hne⟩ := jcharsElems_head x xs hrx
          rw [hu, List.cons_append]
          rw [parseVal_list_cons fuel c (u ++ ']' :: rest) hws hne]
          rw [← List.cons_append, ← hu]
          have hsz2 : sizeL (x :: xs) ≤ fuel := by
            have h1 : sizeV (.list (x :: xs)) = 1 + sizeL (x :: xs) := rfl
            omega
          rw [ih2 x xs hr hsz2 rest]
      | dict kvs =>
        cases kvs with
        | nil => exact parseVal_dict_nil fuel rest
        | cons m ms =>
          have hform : jchars (.dict (m :: ms)) ++ rest =
              lcurly :: (jcharsPairs (m :: ms) ++ rcurly :: rest) := by
            show (lcurly :: (jcharsPairs (m :: ms) ++ [rcurly])) ++ rest = _
            simp
          rw [hform]
          obtain ⟨u, hu⟩ := jcharsPairs_head m ms
          rw [hu, List.cons_append]
          rw [parseVal_dict_cons fuel dquote (u ++ rcurly :: rest) (by decide) (by decide)]
          rw [← List.cons_append, ← hu]
          have hsz2 : sizeKV (m :: ms) ≤ fuel := by
            have h1 : sizeV (.dict (m :: ms)) = 1 + sizeKV (m :: ms) := rfl
            omega
          rw [ih3 m ms hr hsz2 rest]
    · -- array elements
      intro x xs hr hsz rest
      have hszx : sizeV x ≤ fuel := by
        have h1 : sizeL (x :: xs) = 1 + sizeV x + sizeL xs := rfl
        omega
      have hrx : representable x = true := by
        have hr2 : (representable x && representableElems xs) = true := hr
        exact (Bool.and_eq_true_iff.mp hr2).1
      have hrxs : representableElems xs = true := by
        have hr2 : (representable x && representableElems xs) = true := hr
        exact (Bool.and_eq_true_iff.mp hr2).2
      cases xs with
      | nil =>
        show parseElems (fuel + 1) (jchars x ++ ']' :: rest) = some ([x], rest)
        unfold parseElems
        rw [ih1 x hrx hszx (']' :: rest) rfl]
        simp only []
        rw [skipWs_cons_nonws ']' rest (by decide)]
        simp only []
        rw [if_pos trivial]
        rw [if_neg (by decide : ¬(']' = ','))]
      | cons y ys =>
        have hform : jcharsElems (x :: y :: ys) ++ ']' :: rest =
            jchars x ++ ',' :: ' ' :: (jcharsElems (y :: ys) ++ ']' :: rest) := by
          show (jchars x ++ ',' :: ' ' :: jcharsElems (y :: ys)) ++ ']' :: rest = _
          simp
        rw [hform]
        unfold parseElems
        rw [ih1 x hrx hszx (',' :: ' ' :: (jcharsElems (y :: ys) ++ ']' :: rest)) rfl]
        simp only []
        rw [skipWs_cons_nonws ',' _ (by decide)]
        simp only []
        rw [if_pos trivial]
        rw [skipWs_ws ' ' _ (by decide)]
        have hry : representable y = true := by
          have hr2 : (representable y && representableElems ys) = true := hrxs
          exact (Bool.and_eq_true_iff.mp hr2).1
        obtain ⟨c, u, hu, hws, hne⟩ := jcharsElems_head y ys hry
        rw [hu, List.cons_append, skipWs_cons_nonws c _ hws, ← List.cons_append, ← hu]
        have hsz2 : sizeL (y :: ys) ≤ fuel := by
          have h1 : sizeL (x :: y :: ys) = 1 + sizeV x + sizeL (y :: ys) := rfl
          omega
        rw [ih2 y ys hrxs hsz2 rest]
    · -- object members
      intro m ms hr hsz rest
      obtain ⟨k, v⟩ := m
      have hszv : sizeV v ≤ fuel := by
        have h1 : sizeKV ((k, v) :: ms) = 1 + sizeV v + sizeKV ms := rfl
        omega
      have hrv : representable v = true := by
        have hr2 : (representable v && representablePairs ms) = true := hr
        exact (Bool.and_eq_true_iff.mp hr2).1
      have hrms : representablePairs ms = true := by
        have hr2 : (representable v && representablePairs ms) = true := hr
        exact (Bool.and_eq_true_iff.mp hr2).2
      cases ms with
      | nil =>
        have hform : jcharsPairs [(k, v)] ++ rcurly :: rest =
            dquote :: (escList k.data ++ dquote :: (':' :: ' ' :: (jchars v ++ rcurly :: rest))) := by
          show (strChars k.data ++ ':' :: ' ' :: jchars v) ++ rcurly :: rest = _
          unfold strChars
          simp
        rw [hform]
        unfold parseMembers
        simp only []
        rw [if_pos trivial]
        rw [parseStrChars_escList k.data (':' :: ' ' :: (jchars v ++ rcurly :: rest))]
        simp only []
        rw [skipWs_cons_nonws ':' _ (by decide)]
        simp only []
        rw [if_pos trivial]
        rw [skipWs_ws ' ' _ (by decide)]
        obtain ⟨c, t, hct, hws, hne⟩ := jchars_head v hrv
        rw [hct, List.cons_append, skipWs_cons_nonws c _ hws, ← List.cons_append, ← hct]
        rw [ih1 v hrv hszv (rcurly :: rest) rfl]
        simp only []
        rw [skipWs_cons_nonws rcurly rest (by decide)]
        simp only []
        rw [if_pos trivial]
        rw [if_neg (by decide : ¬(rcurly = ','))]
      | cons m2 ms2 =>
        have hform : jcharsPairs ((k, v) :: m2 :: ms2) ++ rcurly :: rest =
            dquote :: (escList k.data ++ dquote ::
              (':' :: ' ' :: (jchars v ++ ',' :: ' ' :: (jcharsPairs (m2 :: ms2) ++ rcurly :: rest)))) := by
          show (strChars k.data ++ ':' :: ' ' :: jchars v ++ ',' :: ' ' :: jcharsPairs (m2 :: ms2)) ++
              rcurly :: rest = _
          unfold strChars
          simp
        rw [hform]
        unfold parseMembers
        simp only []
        rw [if_pos trivial]
        rw [parseStrChars_escList k.data
          (':' :: ' ' :: (jchars v ++ ',' :: ' ' :: (jcharsPairs (m2 :: ms2) ++ rcurly :: rest)))]
        simp only []
        rw [skipWs_cons_nonws ':' _ (by decide)]
        simp only []
        rw [if_pos trivial]
        rw [skipWs_ws ' ' _ (by decide)]
        obtain ⟨c, t, hct, hws, hne⟩ := jchars_head v hrv
        rw [hct, List.cons_append, skipWs_cons_nonws c _ hws, ← List.cons_append, ← hct]
        rw [ih1 v hrv hszv (',' :: ' ' :: (jcharsPairs (m2 :: ms2) ++ rcurly :: rest)) rfl]
        simp only []
        rw [skipWs_cons_nonws ',' _ (by decide)]
        simp only []
        rw [if_pos trivial]
        rw [skipWs_ws ' ' _ (by decide)]
        obtain ⟨u, hu⟩ := jcharsPairs_head m2 ms2
        rw [hu, List.cons_append, skipWs_cons_nonws dquote _ (by decide), ← List.cons_append, ← hu]
        have hsz2 : sizeKV (m2 :: ms2) ≤ fuel := by
          have h1 : sizeKV ((k, v) :: m2 :: ms2) = 1 + sizeV v + sizeKV (m2 :: ms2) := rfl
          omega
        rw [ih3 m2 ms2 hrms hsz2 rest]

theorem natChars_len_pos (n : Nat) : 1 ≤ (natChars n).length := by
  unfold natChars
  rw [List.length_map]
  exact List.length_pos.mpr (natDigs_ne_nil n)

mutual

theorem sizeV_le_len (v : PyVal) (hr : representable v = true) :
    sizeV v ≤ (jchars v).length := by
  match v with
  | .pynone => decide
  | .bool true => show 1 ≤ 4; norm_num
  | .bool false => show 1 ≤ 5; norm_num
  | .int n =>
    show 1 ≤ (intChars n).length
    unfold intChars
    by_cases hn : n < 0
    · rw [if_pos hn]
      simp
    · rw [if_neg hn]
      exact natChars_len_pos n.natAbs
  | .float neg ip frac =>
    show 1 ≤ (floatChars neg ip frac).length
    unfold floatChars
    simp only [List.length_append, List.length_cons]
    omega
  | .unicode s =>
    show 1 ≤ (strChars s.data).length
    unfold strChars
    simp
  | .lng n => simp [representable] at hr
  | .decimal u => simp [representable] at hr
  | .str s => simp [representable] at hr
  | .datetime y mo d h mi s => simp [representable] at hr
  | .entRef i => simp [representable] at hr
  | .list [] => show 1 ≤ 2; norm_num
  | .list (x :: xs) =>
    show 1 + sizeL (x :: xs) ≤ ('[' :: (jcharsElems (x :: xs) ++ [']'])).length
    have h1 := sizeL_le_len (x :: xs) hr
    simp only [List.length_cons, List.length_append]
    omega
  | .dict [] => show 1 ≤ 2; norm_num
  | .dict (m :: ms) =>
    show 1 + sizeKV (m :: ms) ≤ (lcurly :: (jcharsPairs (m :: ms) ++ [rcurly])).length
    have h1 := sizeKV_le_len (m :: ms) hr
    simp only [List.length_cons, List.length_append]
    omega

theorem sizeL_le_len (xs : List PyVal) (hr : representableElems xs = true) :
    sizeL xs ≤ (jcharsElems xs).length + 1 := by
  match xs with
  | [] => show 0 ≤ 0 + 1; omega
  | [x] =>
    have hrx : representable x = true := (Bool.and_eq_true_iff.mp hr).1
    have h1 := sizeV_le_len x hrx
    show 1 + sizeV x + 0 ≤ (jchars x).length + 1
    omega
  | x :: y :: ys =>
    have hrx : representable x = true := (Bool.and_eq_true_iff.mp hr).1
    have hrys : representableElems (y :: ys) = true := (Bool.and_eq_true_iff.mp hr).2
    have h1 := sizeV_le_len x hrx
    have h2 := sizeL_le_len (y :: ys) hrys
    show 1 + sizeV x + sizeL (y :: ys) ≤
      (jchars x ++ ',' :: ' ' :: jcharsElems (y :: ys)).length + 1
    simp only [List.length_append, List.length_cons]
    omega

theorem sizeKV_le_len (ms : List (String × PyVal)) (hr : representablePairs ms = true) :
    sizeKV ms ≤ (jcharsPairs ms).length + 1 := by
  match ms with
  | [] => show 0 ≤ 0 + 1; omega
  | [(k, v)] =>
    have hrv : representable v = true := (Bool.and_eq_true_iff.mp hr).1
    have h1 := sizeV_le_len v hrv
    show 1 + sizeV v + 0 ≤ (strChars k.data ++ ':' :: ' ' :: jchars v).length + 1
    simp only [List.length_append, List.length_cons]
    omega
  | (k, v) :: m2 :: ms2 =>
    have hrv : representable v = true := (Bool.and_eq_true_iff.mp hr).1
    have hrms : representablePairs (m2 :: ms2) = true := (Bool.and_eq_true_iff.mp hr).2
    have h1 := sizeV_le_len v hrv
    have h2 := sizeKV_le_len (m2 :: ms2) hrms
    show 1 + sizeV v + sizeKV (m2 :: ms2) ≤
      (strChars k.data ++ ':' :: ' ' :: jchars v ++ ',' :: ' ' :: jcharsPairs (m2 :: ms2)).length + 1
    simp only [List.length_append, List.length_cons]
    omega

end

mutual

theorem representable_serializable (v : PyVal) (hr : representable v = true) :
    serializable v = true := by
  match v with
  | .pynone => rfl
  | .bool b => rfl
  | .int n => rfl
  | .float neg ip frac => rfl
  | .unicode s => rfl
  | .lng n => simp [representable] at hr
  | .decimal u => simp [representable] at hr
  | .str s => simp [representable] at hr
  | .datetime y mo d h mi s => simp [representable] at hr
  | .entRef i => simp [representable] at hr
  | .list xs => exact representableElems_serializable xs hr
  | .dict ms => exact representablePairs_serializable ms hr

theorem representableElems_serializable (xs : List PyVal) (hr : representableElems xs = true) :
    serializableElems xs = true := by
  match xs with
  | [] => rfl
  | x :: rest =>
    have hrx : representable x = true := (Bool.and_eq_true_iff.mp hr).1
    have hrr : representableElems rest = true := (Bool.and_eq_true_iff.mp hr).2
    show (serializable x && serializableElems rest) = true
    rw [representable_serializable x hrx, representableElems_serializable rest hrr]
    rfl

theorem representablePairs_serializable (ms : List (String × PyVal)) (hr : representablePairs ms = true) :
    serializablePairs ms = true := by
  match ms with
  | [] => rfl
  | (k, v) :: rest =>
    have hrv : representable v = true := (Bool.and_eq_true_iff.mp hr).1
    have hrr : representablePairs rest = true := (Bool.and_eq_true_iff.mp hr).2
    show (serializable v && serializablePairs rest) = true
    rw [representable_serializable v hrv, representablePairs_serializable rest hrr]
    rfl

end

theorem json_loads_jchars (v : PyVal) (hr : representable v = true) :
    json_loads (String.mk (jchars v)) = some v := by
  unfold json_loads
  have hlen : sizeV v ≤ (jchars v).length + 1 := le_trans (sizeV_le_len v hr) (by omega)
  have hp := (parse_jchars ((jchars v).length + 1)).1 v hr hlen [] rfl
  rw [List.append_nil] at hp
  show (match parseVal ((jchars v).length + 1) (jchars v) with
    | some (w, r) => if skipWs r = [] then some w else none
    | none => none) = some v
  rw [hp]
  simp [skipWs]

theorem json_dumps_representable (v : PyVal) (hr : representable v = true) :
    json_dumps v = .ok (String.mk (jchars v)) := by
  unfold json_dumps
  rw [if_pos (representable_serializable v hr)]

theorem joinRecAttrs_isSome (heap : List EntityState) (f : Nat) (l : List (String × PyVal))
    (href : ∀ p ∈ l, ∀ m e2, p.2 = PyVal.entRef m → heap[m]? = some e2 →
      (join_to_dict_recurse heap f e2).isSome = true) :
    (joinRecAttrs heap (join_to_dict_recurse heap f) l).isSome = true := by
  induction l with
  | nil => rfl
  | cons p rest ih =>
    have htail := ih (fun q hq => href q (List.mem_cons_of_mem p hq))
    obtain ⟨t, ht⟩ := Option.isSome_iff_exists.mp htail
    unfold joinRecAttrs
    by_cases hu : startsUnderscore p.1 = true
    · rw [if_pos hu]
      exact htail
    · rw [if_neg hu]
      cases hp2 : p.2 with
      | pynone => exact htail
      | bool b => rw [ht]; rfl
      | int n => rw [ht]; rfl
      | lng n => rw [ht]; rfl
      | float neg ip frac => rw [ht]; rfl
      | decimal u => rw [ht]; rfl
      | str s => rw [ht]; rfl
      | unicode s => rw [ht]; rfl
      | datetime y mo d h mi s => rw [ht]; rfl
      | list xs => rw [ht]; rfl
      | dict kvs => rw [ht]; rfl
      | entRef m =>
        simp only []
        cases hm : heap[m]? with
        | none => simp only []; rw [ht]; rfl
        | some e2 =>
          have hrec := href p (List.mem_cons_self p rest) m e2 hp2 hm
          obtain ⟨d, hd⟩ := Option.isSome_iff_exists.mp hrec
          simp only []
          rw [hd, ht]
          rfl

theorem joinRec_total : ∀ (fuel : Nat) (heap : List EntityState) (rk : Nat → Nat),
    (∀ j e2, heap[j]? = some e2 → ∀ p ∈ e2.attrs, ∀ m, p.2 = PyVal.entRef m → rk m < rk j) →
    ∀ i e, heap[i]? = some e → rk i < fuel →
    (join_to_dict_recurse heap fuel e).isSome = true := by
  intro fuel
  induction fuel using Nat.strong_induction_on with
  | _ fuel ihf =>
    intro heap rk hH i e he hlt
    match fuel, hlt with
    | f + 1, hlt =>
      show (joinRecAttrs heap (join_to_dict_recurse heap f) e.attrs).isSome = true
      apply joinRecAttrs_isSome
      intro p hp m e2 hpm hm
      have hmlt : rk m < rk i := hH i e he p hp m hpm
      exact ihf f (by omega) heap rk hH m e2 hm (by omega)

theorem cyc_none : ∀ fuel : Nat,
    join_to_dict_recurse cycHeap fuel cycE0 = none ∧
      join_to_dict_recurse cycHeap fuel cycE1 = none := by
  intro fuel
  induction fuel with
  | zero => exact ⟨rfl, rfl⟩
  | succ f ih =>
    constructor
    · show joinRecAttrs cycHeap (join_to_dict_recurse cycHeap f) [("peer", PyVal.entRef 1)] = none
      unfold joinRecAttrs
      rw [if_neg (by decide : ¬(startsUnderscore "peer" = true))]
      simp only []
      rw [show cycHeap[1]? = some cycE1 from rfl]
      simp only []
      rw [ih.2]
    · show joinRecAttrs cycHeap (join_to_dict_recurse cycHeap f) [("peer", PyVal.entRef 0)] = none
      unfold joinRecAttrs
      rw [if_neg (by decide : ¬(startsUnderscore "peer" = true))]
      simp only []
      rw [show cycHeap[0]? = some cycE0 from rfl]
      simp only []
      rw [ih.1]

/-! ## Claim theorems -/

/-- Claim C1: `type_compatible` implements the asymmetric
numeric/boolean leniency policy — for a decimal declared type integer
and floating-point values are compatible; for a floating-point declared
type both integers and floats are compatible; for an integer declared
type a float is incompatible and an int compatible; for a boolean
declared type an integer is incompatible and a strict boolean
compatible; any pair matched by none of rules 1–8 is incompatible. -/
theorem C1_type_compatible_policy :
    (∀ n : Int, type_compatible (PyVal.int n) ColType.cDecimal = true)
    ∧ (∀ (neg : Bool) (ip : Nat) (frac : List Nat),
        type_compatible (PyVal.float neg ip frac) ColType.cDecimal = true)
    ∧ (∀ n : Int, type_compatible (PyVal.int n) ColType.cFloat = true)
    ∧ (∀ (neg : Bool) (ip : Nat) (frac : List Nat),
        type_compatible (PyVal.float neg ip frac) ColType.cFloat = true)
    ∧ (∀ (neg : Bool) (ip : Nat) (frac : List Nat),
        type_compatible (PyVal.float neg ip frac) ColType.cInt = false)
    ∧ (∀ n : Int, type_compatible (PyVal.int n) ColType.cInt = true)
    ∧ (∀ n : Int, type_compatible (PyVal.int n) ColType.cBool = false)
    ∧ (∀ b : Bool, type_compatible (PyVal.bool b) ColType.cBool = true)
    ∧ (∀ (v : PyVal) (t : ColType), rulesMatch v t = false → type_compatible v t = false) := by
  refine ⟨fun n => rfl, fun neg ip frac => rfl, fun n => rfl, fun neg ip frac => rfl,
    fun neg ip frac => rfl, fun n => rfl, fun n => rfl, fun b => rfl, ?_⟩
  intro v t h
  cases v <;> cases t <;> simp_all [rulesMatch, type_compatible, isNone, hasPythonType,
    pyIsinstance, isStringColumn, isTypeFloat, isTypeInt, isTypeLong, isTypeBool, isBasestring]

/-- Witness for C1 at a concrete unmatched pair: a `str` value against
a `DateTime` column is incompatible. -/
theorem C1_type_compatible_policy_witness :
    type_compatible (PyVal.str "x") ColType.cDateTime = false :=
  C1_type_compatible_policy.2.2.2.2.2.2.2.2 (PyVal.str "x") ColType.cDateTime rfl

/-- Claim C2: `type_compatible(None, T)` is true for every declared
type `T`, and a declared type with no native `python_type` accepts
every value (permissive fallback). -/
theorem C2_none_and_fallback :
    (∀ t : ColType, type_compatible PyVal.pynone t = true)
    ∧ (∀ v : PyVal, type_compatible v ColType.cNone = true) := by
  constructor
  · intro t
    rfl
  · intro v
    cases v <;> rfl

/-- Claim C10: on an integer-declared column a boolean value is
accepted (`isinstance` is subtype-inclusive and `bool` subclasses
`int`), while the strict separation still rejects integers on
boolean-declared columns. -/
theorem C10_bool_accepted_on_integer :
    (∀ b : Bool, type_compatible (PyVal.bool b) ColType.cInt = true)
    ∧ (∀ n : Int, type_compatible (PyVal.int n) ColType.cBool = false) :=
  ⟨fun _ => rfl, fun _ => rfl⟩

/-- Claim C9: every concrete entity table except `sensor_type` carries
the integer primary key `id` and a `created_at` timestamp with a
current-UTC default, while `sensor_type` carries only the `id` primary
key and no defaulted timestamp; `allTables` enumerates all 18 declared
model classes. -/
theorem C9_default_attributes :
    (allTables.all fun t =>
      if t.tablename = "sensor_type" then hasIdPk t && hasNoDefaultTimestamp t
      else hasIdPk t && hasCreatedAtDefault t) = true
    ∧ (allTables.any fun t => t.tablename = "sensor_type") = true
    ∧ allTables.length = 18 := by
  refine ⟨?_, ?_, rfl⟩ <;> rfl

/-- Claim C5: `validate` checks each declared column's current value
with `type_compatible`; it returns normally when every column is
compatible, and raises `InvalidParameter` over the first incompatible
column, with a message naming the field, its value and its declared
type. -/
theorem C5_validate_first_incompatible (columns : List ColumnDef) (get : String → PyVal) :
    ((∀ c ∈ columns, type_compatible (get c.name) c.ctype = true) →
      validate columns get = Except.ok ())
    ∧ (∀ pre c post, columns = pre ++ c :: post →
      (∀ c2 ∈ pre, type_compatible (get c2.name) c2.ctype = true) →
      type_compatible (get c.name) c.ctype = false →
      validate columns get =
        Except.error ⟨invalidParameterMsg c.name (get c.name) c.ctype⟩) := by
  constructor
  · induction columns with
    | nil => intro _; rfl
    | cons c rest ih =>
      intro h
      show (if type_compatible (get c.name) c.ctype = true then validate rest get
        else Except.error ⟨invalidParameterMsg c.name (get c.name) c.ctype⟩) = Except.ok ()
      rw [if_pos (h c (List.mem_cons_self c rest))]
      exact ih fun c2 hc2 => h c2 (List.mem_cons_of_mem c hc2)
  · intro pre c post hsplit hpre hbad
    subst hsplit
    revert hpre
    induction pre with
    | nil =>
      intro _
      show (if type_compatible (get c.name) c.ctype = true then validate post get
        else Except.error ⟨invalidParameterMsg c.name (get c.name) c.ctype⟩) = _
      rw [if_neg (by simp [hbad])]
    | cons c2 pre2 ih =>
      intro hpre
      show (if type_compatible (get c2.name) c2.ctype = true
        then validate (pre2 ++ c :: post) get
        else Except.error ⟨invalidParameterMsg c2.name (get c2.name) c2.ctype⟩) = _
      rw [if_pos (hpre c2 (List.mem_cons_self c2 pre2))]
      exact ih fun q hq => hpre q (List.mem_cons_of_mem c2 hq)

/-- Witness for C5: a boolean column holding the integer `1` raises
`InvalidParameter` naming the `status` field. -/
theorem C5_validate_first_incompatible_witness :
    validate c5cols c5get =
      Except.error ⟨invalidParameterMsg "status" (PyVal.int 1) ColType.cBool⟩ :=
  (C5_validate_first_incompatible c5cols c5get).2 [] (col "status" ColType.cBool) [] rfl
    (fun c2 hc2 => absurd hc2 (List.not_mem_nil c2)) rfl

/-- Claim C6: `to_dict` projects the declared columns into a flat
mapping — unset (`None`) fields are omitted, implementation-private
(`_`-prefixed) fields are excluded, timestamp values are rendered with
the canonical date-time formatter, and every other present value
appears unchanged under its field name. -/
theorem C6_to_dict_projection (columns : List ColumnDef) (get : String → PyVal) :
    (∀ k v, (k, v) ∈ to_dict columns get → startsUnderscore k = false)
    ∧ (∀ k v, (k, v) ∈ to_dict columns get → get k ≠ PyVal.pynone)
    ∧ (∀ c ∈ columns, get c.name = PyVal.pynone → ∀ v, (c.name, v) ∉ to_dict columns get)
    ∧ (∀ c ∈ columns, startsUnderscore c.name = false →
        ∀ y mo d h mi s, get c.name = PyVal.datetime y mo d h mi s →
        (c.name, PyVal.str (format_datetime y mo d h mi s)) ∈ to_dict columns get)
    ∧ (∀ c ∈ columns, startsUnderscore c.name = false → get c.name ≠ PyVal.pynone →
        (∀ y mo d h mi s, get c.name ≠ PyVal.datetime y mo d h mi s) →
        (c.name, get c.name) ∈ to_dict columns get) := by
  refine ⟨?_, ?_, ?_, ?_, ?_⟩
  · intro k v hmem
    simp only [to_dict, List.mem_filterMap] at hmem
    obtain ⟨a, _, hf⟩ := hmem
    by_cases hu : startsUnderscore a.name = true
    · rw [if_pos hu] at hf
      exact Option.noConfusion hf
    · cases hg : get a.name <;> rw [if_neg hu, hg] at hf <;>
        first
        | exact Option.noConfusion hf
        | (injection hf with hf2
           injection hf2 with hk hv
           subst hk
           simpa using hu)
  · intro k v hmem
    simp only [to_dict, List.mem_filterMap] at hmem
    obtain ⟨a, _, hf⟩ := hmem
    by_cases hu : startsUnderscore a.name = true
    · rw [if_pos hu] at hf
      exact Option.noConfusion hf
    · cases hg : get a.name <;> rw [if_neg hu, hg] at hf <;>
        first
        | exact Option.noConfusion hf
        | (injection hf with hf2
           injection hf2 with hk hv
           subst hk
           rw [hg]
           exact fun hx => PyVal.noConfusion hx)
  · intro c hc hnone v hmem
    simp only [to_dict, List.mem_filterMap] at hmem
    obtain ⟨a, _, hf⟩ := hmem
    by_cases hu : startsUnderscore a.name = true
    · rw [if_pos hu] at hf
      exact Option.noConfusion hf
    · cases hg : get a.name <;> rw [if_neg hu, hg] at hf <;>
        first
        | exact Option.noConfusion hf
        | (injection hf with hf2
           injection hf2 with hk hv
           rw [hk, hnone] at hg
           exact PyVal.noConfusion hg)
  · intro c hc hu y mo d h mi s hdt
    refine List.mem_filterMap.mpr ⟨c, hc, ?_⟩
    rw [if_neg (by simp [hu]), hdt]
  · intro c hc hu hnn hnd
    refine List.mem_filterMap.mpr ⟨c, hc, ?_⟩
    cases hg : get c.name with
    | pynone => exact absurd hg hnn
    | datetime y mo d h mi s => exact absurd hg (hnd y mo d h mi s)
    | bool b => rw [if_neg (by simp [hu])]
    | int n => rw [if_neg (by simp [hu])]
    | lng n => rw [if_neg (by simp [hu])]
    | float neg ip frac => rw [if_neg (by simp [hu])]
    | decimal u => rw [if_neg (by simp [hu])]
    | str s => rw [if_neg (by simp [hu])]
    | unicode s => rw [if_neg (by simp [hu])]
    | entRef i => rw [if_neg (by simp [hu])]
    | list xs => rw [if_neg (by simp [hu])]
    | dict kvs => rw [if_neg (by simp [hu])]

/-- Witness for C6: the timestamp field appears formatted, and the
unset field is omitted. -/
theorem C6_to_dict_projection_witness :
    ("ts", PyVal.str (format_datetime 2024 1 15 10 30 0)) ∈ to_dict c6cols c6get
    ∧ ¬(("gone", PyVal.unicode "zzz") ∈ to_dict c6cols c6get) :=
  ⟨(C6_to_dict_projection c6cols c6get).2.2.2.1 (col "ts" ColType.cDateTime) (by decide)
      (by decide) 2024 1 15 10 30 0 rfl,
    (C6_to_dict_projection c6cols c6get).2.2.1 (col "gone" ColType.cStr) (by decide) rfl
      (PyVal.unicode "zzz")⟩

/-- Claim C7: `join_to_dict` projects the full runtime attribute set
(ignoring the declared column list), replaces an entity-valued
attribute by that entity's flat `to_dict` projection, and expands one
level only — every value of the produced mapping is either a plain
value or a mapping whose own values are all plain. -/
theorem C7_join_to_dict_one_level (heap : List EntityState) (e : EntityState) :
    (∀ cols2 : List ColumnDef, join_to_dict heap ⟨cols2, e.attrs⟩ = join_to_dict heap e)
    ∧ (∀ p ∈ e.attrs, startsUnderscore p.1 = false → p.2 ≠ PyVal.pynone →
        ∃ dv, (p.1, dv) ∈ join_to_dict heap e)
    ∧ (∀ k i e2, (k, PyVal.entRef i) ∈ e.attrs → startsUnderscore k = false →
        heap[i]? = some e2 →
        (k, DVal.dict (asPrims (entity_to_dict e2))) ∈ join_to_dict heap e)
    ∧ (∀ k dv, (k, dv) ∈ join_to_dict heap e →
        (∃ w, dv = DVal.prim w) ∨
        ∃ kvs, dv = DVal.dict kvs ∧ ∀ q ∈ kvs, ∃ w, q.2 = DVal.prim w) := by
  refine ⟨fun cols2 => rfl, ?_, ?_, ?_⟩
  · intro p hp hu hnn
    cases hv : p.2 with
    | pynone => exact absurd hv hnn
    | datetime y mo d h mi s =>
      exact ⟨DVal.prim (PyVal.str (format_datetime y mo d h mi s)),
        List.mem_filterMap.mpr ⟨p, hp, by simp [hu, hv]⟩⟩
    | entRef i =>
      cases hm : heap[i]? with
      | some e2 =>
        exact ⟨DVal.dict (asPrims (entity_to_dict e2)),
          List.mem_filterMap.mpr ⟨p, hp, by simp [hu, hv, hm]⟩⟩
      | none =>
        exact ⟨DVal.prim (PyVal.entRef i),
          List.mem_filterMap.mpr ⟨p, hp, by simp [hu, hv, hm]⟩⟩
    | bool b => exact ⟨DVal.prim (PyVal.bool b), List.mem_filterMap.mpr ⟨p, hp, by simp [hu, hv]⟩⟩
    | int n => exact ⟨DVal.prim (PyVal.int n), List.mem_filterMap.mpr ⟨p, hp, by simp [hu, hv]⟩⟩
    | lng n => exact ⟨DVal.prim (PyVal.lng n), List.mem_filterMap.mpr ⟨p, hp, by simp [hu, hv]⟩⟩
    | float neg ip frac =>
      exact ⟨DVal.prim (PyVal.float neg ip frac),
        List.mem_filterMap.mpr ⟨p, hp, by simp [hu, hv]⟩⟩
    | decimal u =>
      exact ⟨DVal.prim (PyVal.decimal u), List.mem_filterMap.mpr ⟨p, hp, by simp [hu, hv]⟩⟩
    | str s => exact ⟨DVal.prim (PyVal.str s), List.mem_filterMap.mpr ⟨p, hp, by simp [hu, hv]⟩⟩
    | unicode s =>
      exact ⟨DVal.prim (PyVal.unicode s), List.mem_filterMap.mpr ⟨p, hp, by simp [hu, hv]⟩⟩
    | list xs => exact ⟨DVal.prim (PyVal.list xs), List.mem_filterMap.mpr ⟨p, hp, by simp [hu, hv]⟩⟩
    | dict kvs => exact ⟨DVal.prim (PyVal.dict kvs), List.mem_filterMap.mpr ⟨p, hp, by simp [hu, hv]⟩⟩
  · intro k i e2 hmem hu hheap
    exact List.mem_filterMap.mpr ⟨(k, PyVal.entRef i), hmem, by simp [hu, hheap]⟩
  · intro k dv hmem
    obtain ⟨p, hp, hf⟩ := List.mem_filterMap.mp hmem
    by_cases hu : startsUnderscore p.1 = true
    · rw [if_pos hu] at hf
      exact Option.noConfusion hf
    · rw [if_neg hu] at hf
      cases hv : p.2 with
      | pynone => rw [hv] at hf; exact Option.noConfusion hf
      | datetime y mo d h mi s =>
        rw [hv] at hf
        injection hf with hf2
        injection hf2 with hk hdv
        exact Or.inl ⟨_, hdv.symm⟩
      | entRef i =>
        rw [hv] at hf
        simp only [] at hf
        cases hm : heap[i]? with
        | some e2 =>
          rw [hm] at hf
          injection hf with hf2
          injection hf2 with hk hdv
          refine Or.inr ⟨asPrims (entity_to_dict e2), hdv.symm, ?_⟩
          intro q hq
          obtain ⟨a, _, ha⟩ := List.mem_map.mp hq
          exact ⟨a.2, by rw [← ha]⟩
        | none =>
          rw [hm] at hf
          injection hf with hf2
          injection hf2 with hk hdv
          exact Or.inl ⟨_, hdv.symm⟩
      | bool b =>
        rw [hv] at hf
        injection hf with hf2
        injection hf2 with hk hdv
        exact Or.inl ⟨_, hdv.symm⟩
      | int n =>
        rw [hv] at hf
        injection hf with hf2
        injection hf2 with hk hdv
        exact Or.inl ⟨_, hdv.symm⟩
      | lng n =>
        rw [hv] at hf
        injection hf with hf2
        injection hf2 with hk hdv
        exact Or.inl ⟨_, hdv.symm⟩
      | float neg ip frac =>
        rw [hv] at hf
        injection hf with hf2
        injection hf2 with hk hdv
        exact Or.inl ⟨_, hdv.symm⟩
      | decimal u =>
        rw [hv] at hf
        injection hf with hf2
        injection hf2 with hk hdv
        exact Or.inl ⟨_, hdv.symm⟩
      | str s =>
        rw [hv] at hf
        injection hf with hf2
        injection hf2 with hk hdv
        exact Or.inl ⟨_, hdv.symm⟩
      | unicode s =>
        rw [hv] at hf
        injection hf with hf2
        injection hf2 with hk hdv
        exact Or.inl ⟨_, hdv.symm⟩
      | list xs =>
        rw [hv] at hf
        injection hf with hf2
        injection hf2 with hk hdv
        exact Or.inl ⟨_, hdv.symm⟩
      | dict kvs =>
        rw [hv] at hf
        injection hf with hf2
        injection hf2 with hk hdv
        exact Or.inl ⟨_, hdv.symm⟩

/-- Witness for C7: the populated `gateway` relation of the fan-like
fixture appears as that gateway's flat `to_dict` mapping. -/
theorem C7_join_to_dict_one_level_witness :
    ("gateway", DVal.dict (asPrims (entity_to_dict gwEntity))) ∈ join_to_dict wHeap fanEntity :=
  (C7_join_to_dict_one_level wHeap fanEntity).2.2.1 "gateway" 0 gwEntity
    (List.Mem.tail _ (List.Mem.tail _ (List.Mem.head _))) (by decide) rfl

/-- Claim C8: `join_to_dict_recurse` expands related entities
recursively — whenever the heap's reference graph admits a decreasing
rank (is acyclic) the recursion terminates (some fuel suffices); a
two-level chain `entA → entB → entC` yields `entC` fully expanded at
depth two; and on a cyclic heap the recursion never finishes (no
amount of fuel produces a result). -/
theorem C8_join_to_dict_recurse_behavior :
    (∀ (heap : List EntityState) (rk : Nat → Nat),
      (∀ (j : Nat) (e2 : EntityState), heap[j]? = some e2 →
        ∀ p ∈ e2.attrs, ∀ m : Nat, p.2 = PyVal.entRef m → rk m < rk j) →
      ∀ (i : Nat) (e : EntityState), heap[i]? = some e →
        ∃ fuel, (join_to_dict_recurse heap fuel e).isSome = true)
    ∧ join_to_dict_recurse chainHeap 3 entA =
        some [("b", DVal.dict [("c", DVal.dict [("value", DVal.prim (PyVal.int 5)),
          ("uuid", DVal.prim (PyVal.unicode "u"))]), ("name", DVal.prim (PyVal.unicode "b"))])]
    ∧ ∀ fuel, join_to_dict_recurse cycHeap fuel cycE0 = none := by
  refine ⟨?_, rfl, fun fuel => (cyc_none fuel).1⟩
  intro heap rk hH i e he
  exact ⟨rk i + 1, joinRec_total (rk i + 1) heap rk hH i e he (by omega)⟩

/-- Witness for C8's termination clause at a one-entity heap with no
relations and the constant-zero rank. -/
theorem C8_join_to_dict_recurse_behavior_witness :
    ∃ fuel, (join_to_dict_recurse termHeap fuel termEntity).isSome = true := by
  apply C8_join_to_dict_recurse_behavior.1 termHeap (fun _ => 0) ?_ 0 termEntity rfl
  intro j e2 hj p hp m hm
  match j with
  | 0 =>
    have hj2 : some termEntity = some e2 := hj
    injection hj2 with hh
    rw [← hh] at hp
    have hp2 : p = ("x", PyVal.int 1) := List.mem_singleton.mp hp
    rw [hp2] at hm
    exact PyVal.noConfusion hm
  | j + 1 =>
    have hnone : termHeap[j + 1]? = (none : Option EntityState) := by
      show ([] : List EntityState)[j]? = none
      simp
    rw [hnone] at hj
    exact Option.noConfusion hj

/-- Claim C3: the JSON field codec round-trips — decoding the encoding
of any representable structured value yields the value back, and both
directions map `None` to `None`. -/
theorem C3_json_codec_roundtrip :
    (∀ v : PyVal, representable v = true →
      ∃ s : String, process_bind_param (some v) = Except.ok (some s) ∧
        process_result_value (some s) = Except.ok (some v))
    ∧ process_bind_param (none : Option PyVal) = Except.ok none
    ∧ process_result_value (none : Option String) = Except.ok none := by
  refine ⟨?_, rfl, rfl⟩
  intro v hr
  refine ⟨String.mk (jchars v), ?_, ?_⟩
  · show (json_dumps v).map some = Except.ok (some (String.mk (jchars v)))
    rw [json_dumps_representable v hr]
    rfl
  · show (match json_loads (String.mk (jchars v)) with
      | some w => Except.ok (some w)
      | none => Except.error CodecError.deserializationError) =
        Except.ok (some v)
    rw [json_loads_jchars v hr]

/-- Witness for C3 at a concrete nested value. -/
theorem C3_json_codec_roundtrip_witness :
    ∃ s : String,
      process_bind_param (some (PyVal.dict [("a", PyVal.list [PyVal.int 1, PyVal.unicode "x"]),
        ("b", PyVal.bool true)])) = Except.ok (some s) ∧
      process_result_value (some s) = Except.ok (some (PyVal.dict
        [("a", PyVal.list [PyVal.int 1, PyVal.unicode "x"]), ("b", PyVal.bool true)])) :=
  C3_json_codec_roundtrip.1
    (PyVal.dict [("a", PyVal.list [PyVal.int 1, PyVal.unicode "x"]), ("b", PyVal.bool true)]) rfl

/-- Claim C4: encoding fails with `SerializationError` exactly on
non-serializable content and succeeds otherwise; decoding fails with
`DeserializationError` exactly on text the JSON grammar rejects and
succeeds otherwise — these are the codec's only error outcomes. -/
theorem C4_json_codec_errors :
    (∀ v : PyVal, serializable v = false →
      process_bind_param (some v) = Except.error CodecError.serializationError)
    ∧ (∀ v : PyVal, serializable v = true →
      process_bind_param (some v) = Except.ok (some (String.mk (jchars v))))
    ∧ (∀ s : String, json_loads s = none →
      process_result_value (some s) = Except.error CodecError.deserializationError)
    ∧ (∀ (s : String) (v : PyVal), json_loads s = some v →
      process_result_value (some s) = Except.ok (some v)) := by
  refine ⟨?_, ?_, ?_, ?_⟩
  · intro v hv
    show (json_dumps v).map some = Except.error CodecError.serializationError
    unfold json_dumps
    rw [if_neg (by simp [hv])]
    rfl
  · intro v hv
    show (json_dumps v).map some = Except.ok (some (String.mk (jchars v)))
    unfold json_dumps
    rw [if_pos hv]
    rfl
  · intro s hs
    show (match json_loads s with
      | some w => Except.ok (some w)
      | none => Except.error CodecError.deserializationError) =
        Except.error CodecError.deserializationError
    rw [hs]
  · intro s v hs
    show (match json_loads s with
      | some w => Except.ok (some w)
      | none => Except.error CodecError.deserializationError) = Except.ok (some v)
    rw [hs]

/-- Witness for C4: a `datetime` value is rejected with
`SerializationError`, and the malformed text `"[1,"` is rejected with
`DeserializationError`. -/
theorem C4_json_codec_errors_witness :
    process_bind_param (some (PyVal.datetime 2024 1 15 10 30 0)) =
      Except.error CodecError.serializationError
    ∧ process_result_value (some "[1,") = Except.error CodecError.deserializationError :=
  ⟨C4_json_codec_errors.1 (PyVal.datetime 2024 1 15 10 30 0) rfl,
    C4_json_codec_errors.2.2.1 "[1," rfl⟩
